import Mathlib

set_option maxHeartbeats 1000000
set_option maxRecDepth 8192

/-!
Shallow embedding of the MiniC front end (preprocessor and scanner) from
the mini-compiler repository, together with proofs settling the frozen
claims about it.  Rust strings are modelled as Lean `String` / `List Char`,
`i32` as range-checked `Int`, `HashMap` as an association list with
insert-replaces-existing semantics, and `HashSet` as a duplicate-free list.
-/

namespace MiniC

/-- Position in the source code, 1-indexed (src/common/position.rs). -/
structure Position where
  line : Nat
  column : Nat
deriving DecidableEq, Repr

/-- Position::start — the (1,1) position. -/
def Position.start : Position := ⟨1, 1⟩

/-- Position::new_line — next line, column reset to 1. -/
def Position.newLine (p : Position) : Position := ⟨p.line + 1, 1⟩

/-- Position::advance_column. -/
def Position.advanceColumn (p : Position) (k : Nat) : Position := ⟨p.line, p.column + k⟩

/-- Rust char::is_whitespace: the Unicode White_Space property, written out
as the full (finite) list of code points. -/
def rustIsWhitespace (c : Char) : Bool :=
  c = '\t' || c = '\n' || c = '\x0b' || c = '\x0c' || c = '\r' || c = ' ' ||
  c = '\u0085' || c = '\u00A0' || c = '\u1680' ||
  ('\u2000' ≤ c && c ≤ '\u200A') ||
  c = '\u2028' || c = '\u2029' || c = '\u202F' || c = '\u205F' || c = '\u3000'

/-- Rust char::is_alphanumeric is the Unicode Alphabetic-or-Number class;
restricted to ASCII (the only characters any claim in this development
evaluates the predicate on) it is exactly the ASCII letters and digits. -/
def rustIsAlphanumeric (c : Char) : Bool := c.isAlpha || c.isDigit

/-- Rust char::is_alphabetic, restricted to ASCII as above. -/
def rustIsAlphabetic (c : Char) : Bool := c.isAlpha

theorem dropWhile_length_le (p : Char → Bool) (l : List Char) :
    (l.dropWhile p).length ≤ l.length := by
  induction l with
  | nil => simp
  | cons c cs ih =>
    rw [List.dropWhile_cons]
    split
    · exact Nat.le_succ_of_le ih
    · simp

/-- Rust str::trim_start on the character list. -/
def trimStartChars (cs : List Char) : List Char := cs.dropWhile rustIsWhitespace

/-- Rust str::trim_start. -/
def rustTrimStart (s : String) : String := ⟨trimStartChars s.data⟩

/-- Rust str::split_whitespace on a character list: maximal runs of
non-whitespace characters, collected with an explicit accumulator for the
word currently being read so the recursion is structural. -/
def splitWsGo : List Char → List Char → List (List Char)
  | [], word => if word.isEmpty then [] else [word]
  | c :: cs, word =>
    if rustIsWhitespace c then
      if word.isEmpty then splitWsGo cs [] else word :: splitWsGo cs []
    else splitWsGo cs (word ++ [c])

/-- Rust str::split_whitespace on a character list. -/
def splitWhitespaceChars (cs : List Char) : List (List Char) := splitWsGo cs []

/-- Rust str::split_whitespace, collected to a vector of strings. -/
def rustSplitWhitespace (s : String) : List String :=
  (splitWhitespaceChars s.data).map fun w => ⟨w⟩

/-- Strip one trailing carriage return (used by str::lines on a segment that
was terminated by a newline). -/
def stripTrailingCr (cs : List Char) : List Char :=
  if cs.getLast? = some '\r' then cs.dropLast else cs

/-- Rust str::lines on a character list, with the current segment as an
accumulator: split at newline characters, strip a carriage return that
directly precedes each newline, and do not produce a final empty line for a
trailing newline.  A final segment not terminated by a newline keeps a
trailing carriage return, exactly as in Rust. -/
def rustLinesGo : List Char → List Char → List (List Char)
  | [], seg => [seg]
  | '\n' :: rest, seg =>
    match rest with
    | [] => [stripTrailingCr seg]
    | _ :: _ => stripTrailingCr seg :: rustLinesGo rest []
  | c :: rest, seg => rustLinesGo rest (seg ++ [c])

/-- Rust str::lines on a character list; the empty string has no lines. -/
def rustLinesChars : List Char → List (List Char)
  | [] => []
  | c :: rest => rustLinesGo (c :: rest) []

/-- Rust str::lines. -/
def rustLines (s : String) : List String :=
  (rustLinesChars s.data).map fun l => ⟨l⟩

/-- Preprocessor error taxonomy (src/preprocessor/error.rs). -/
inductive PreprocessorError
  | UnterminatedComment (position : Position)
  | InvalidDirective (position : Position) (directive : String) (reason : String)
  | UnmatchedEndif (position : Position)
  | UnterminatedConditional (position : Position)
  | InvalidMacroName (name : String)
  | MacroRecursion (name : String)
  | MacroExpansion (message : String)
  | UnmatchedElse (position : Position)
  | UnexpectedEndif (position : Position)
  | MacroCycle (cycle : List String)
  | UndefinedMacro (position : Position) (name : String)
  | InvalidSyntax (position : Position) (details : String)
deriving DecidableEq, Repr

/-- Macro definition: a name and its raw replacement text
(src/preprocessor/macros.rs). -/
structure MacroDefinition where
  name : String
  value : String
deriving DecidableEq, Repr

/-- The macro table: a name-to-definition map (HashMap, modelled as an
association list where insertion replaces any existing binding) plus the
expansion stack (HashSet, modelled as a duplicate-free list). -/
structure MacroTable where
  macros : List (String × MacroDefinition)
  expansionStack : List String
deriving DecidableEq, Repr

/-- MacroTable::new. -/
def MacroTable.new : MacroTable := ⟨[], []⟩

/-- MacroTable::is_valid_macro_name. -/
def isValidMacroName (name : String) : Bool :=
  match name.data with
  | [] => false
  | first :: _ =>
    (rustIsAlphabetic first || first = '_') &&
      name.data.all fun c => rustIsAlphanumeric c || c = '_'

/-- MacroTable::define — validates the name, then inserts the definition,
replacing any existing binding of the same name (HashMap::insert). -/
def MacroTable.define (t : MacroTable) (name value : String) :
    Except PreprocessorError MacroTable :=
  if !isValidMacroName name then .error (.InvalidMacroName name)
  else .ok { t with
    macros := (name, MacroDefinition.mk name value) ::
      t.macros.filter fun p => p.1 != name }

/-- MacroTable::undefine (HashMap::remove). -/
def MacroTable.undefine (t : MacroTable) (name : String) : MacroTable :=
  { t with macros := t.macros.filter fun p => p.1 != name }

/-- MacroTable::is_defined. -/
def MacroTable.isDefined (t : MacroTable) (name : String) : Bool :=
  (t.macros.lookup name).isSome

/-- HashSet::insert on the duplicate-free list model. -/
def hsInsert (x : String) (s : List String) : List String :=
  if s.contains x then s else x :: s

/-- HashSet::remove on the duplicate-free list model. -/
def hsRemove (x : String) (s : List String) : List String := s.erase x

/-- Core of MacroTable::expand.  The Rust code walks the input character by
character, accumulating maximal alphanumeric-or-underscore runs as candidate
identifiers and pushing their characters into the result as it goes; when a
completed identifier names a defined macro the pushed characters are
truncated away and replaced by the recursively expanded value
(equivalently, as written here, an identifier run is emitted or replaced
only once its end is reached).  The expansion stack guards recursion: a name
already in the stack fails with MacroRecursion; otherwise the name is
inserted before the nested expansion and removed afterwards — but an error
propagates without performing the removal, exactly as the Rust early return
does.  The recursion into macro values is not structural, so the function is
structurally recursive on a fuel parameter consumed at every step;
MacroTable.expand passes a budget large enough that the fuel-exhaustion
branch is unreachable (each consumed character costs one unit, and each of
the at most macros.length nesting levels multiplies the remaining work by no
more than the total size of the macro values plus two). -/
def expandGo (macros : List (String × MacroDefinition)) :
    Nat → List String → List Char → List Char → Bool →
      Except PreprocessorError (List Char) × List String
  | 0, stack, _, _, _ => (.error (.MacroExpansion "expansion budget exhausted"), stack)
  | fuel + 1, stack, [], word, inId =>
    if inId && !word.isEmpty then
      match macros.lookup (⟨word⟩ : String) with
      | none => (.ok word, stack)
      | some md =>
        if stack.contains (⟨word⟩ : String) then
          (.error (.MacroRecursion ⟨word⟩), stack)
        else
          match expandGo macros fuel (hsInsert ⟨word⟩ stack) md.value.data [] false with
          | (.ok expanded, stack1) => (.ok expanded, hsRemove ⟨word⟩ stack1)
          | (.error e, stack1) => (.error e, stack1)
    else (.ok [], stack)
  | fuel + 1, stack, c :: rest, word, inId =>
    if rustIsAlphanumeric c || c = '_' then
      expandGo macros fuel stack rest (if inId then word ++ [c] else [c]) true
    else if inId then
      match macros.lookup (⟨word⟩ : String) with
      | none =>
        match expandGo macros fuel stack rest [] false with
        | (.ok out, stack1) => (.ok (word ++ c :: out), stack1)
        | (.error e, stack1) => (.error e, stack1)
      | some md =>
        if stack.contains (⟨word⟩ : String) then
          (.error (.MacroRecursion ⟨word⟩), stack)
        else
          match expandGo macros fuel (hsInsert ⟨word⟩ stack) md.value.data [] false with
          | (.error e, stack1) => (.error e, stack1)
          | (.ok expanded, stack1) =>
            match expandGo macros fuel (hsRemove ⟨word⟩ stack1) rest [] false with
            | (.ok out, stack2) => (.ok (expanded ++ c :: out), stack2)
            | (.error e, stack2) => (.error e, stack2)
    else
      match expandGo macros fuel stack rest [] false with
      | (.ok out, stack1) => (.ok (c :: out), stack1)
      | (.error e, stack1) => (.error e, stack1)

/-- Fuel budget for MacroTable::expand: one unit per character plus one,
multiplied once per possible nesting level by the total macro-value size
plus two.  Always at least input.length + 1. -/
def expandBudget (macros : List (String × MacroDefinition)) (input : List Char) : Nat :=
  (input.length + 1) *
    (macros.foldl (fun n p => n + p.2.value.length) 0 + 2) ^ (macros.length + 1)

/-- MacroTable::expand.  Takes &mut self in Rust: the result pairs the
Ok-or-error outcome with the table as left behind, whose expansion stack is
restored on success but not on error. -/
def MacroTable.expand (t : MacroTable) (input : String) :
    Except PreprocessorError String × MacroTable :=
  match expandGo t.macros (expandBudget t.macros input.data) t.expansionStack
      input.data [] false with
  | (.ok out, stack1) => (.ok ⟨out⟩, { t with expansionStack := stack1 })
  | (.error e, stack1) => (.error e, { t with expansionStack := stack1 })

/-- State of one conditional directive (src/preprocessor/mod.rs). -/
inductive ConditionState
  | IfDef (active : Bool)
  | IfNDef (active : Bool)
deriving DecidableEq, Repr

/-- The #else directive negates the active flag of the top entry. -/
def ConditionState.flip : ConditionState → ConditionState
  | .IfDef a => .IfDef (!a)
  | .IfNDef a => .IfNDef (!a)

/-- Result of processing one directive (src/preprocessor/mod.rs). -/
inductive DirectiveResult
  | SkipLine
  | ProcessLine (s : String)
  | Continue
deriving DecidableEq, Repr

/-- Preprocessor::remove_comments_from_whole_source, one character at a
time.  The boolean flags are the in_string / in_char / escape_next /
in_comment state and commentStart the recorded start of an open block
comment.  Two Rust constructs are unrolled into extra state so the machine
consumes exactly one character per step: the inner for-loop of the
line-comment arm becomes the inLineComment flag (a space per skipped
character when preserving line numbers, position updated only at the
terminating newline, exactly like the inner loop), and the chars.next()
calls that consume the second character of //, /\* and \*/ outside the
main loop become the skipNext flag, whose step consumes the character with
no emission and no position update, exactly like those iterator calls. -/
def removeCommentsGo (preserve : Bool) (startPosition : Position) :
    List Char → Position → Bool → Bool → Bool → Bool → Bool → Bool → Option Position →
      Except PreprocessorError (List Char)
  | [], _pos, _inString, _inChar, _escape, inComment, _inLineComment, _skipNext,
      commentStart =>
    if inComment then .error (.UnterminatedComment (commentStart.getD startPosition))
    else .ok []
  | c :: rest, pos, inString, inChar, escape, inComment, inLineComment, skipNext,
      commentStart =>
    if skipNext then
      removeCommentsGo preserve startPosition rest pos inString inChar escape inComment
        inLineComment false commentStart
    else if inLineComment then
      if c = '\n' then
        (removeCommentsGo preserve startPosition rest pos.newLine inString inChar escape
          inComment false false commentStart).map ('\n' :: ·)
      else
        (removeCommentsGo preserve startPosition rest pos inString inChar escape
          inComment true false commentStart).map
          fun tail => (if preserve then [' '] else []) ++ tail
    else
      let pos1 := if c = '\n' then pos.newLine else pos.advanceColumn 1
      if escape then
        (removeCommentsGo preserve startPosition rest pos1 inString inChar false inComment
          false false commentStart).map (c :: ·)
      else if c = '"' && !inChar && !inComment then
        (removeCommentsGo preserve startPosition rest pos1 (!inString) inChar false inComment
          false false commentStart).map (c :: ·)
      else if c = '\'' && !inString && !inComment then
        (removeCommentsGo preserve startPosition rest pos1 inString (!inChar) false inComment
          false false commentStart).map (c :: ·)
      else if c = '\\' && (inString || inChar) && !inComment then
        (removeCommentsGo preserve startPosition rest pos1 inString inChar true inComment
          false false commentStart).map (c :: ·)
      else if c = '/' && !inString && !inChar && !inComment then
        if rest.head? = some '/' then
          (removeCommentsGo preserve startPosition rest pos1 inString inChar false inComment
            true true commentStart).map fun tail => (if preserve then [' '] else []) ++ tail
        else if rest.head? = some '*' then
          (removeCommentsGo preserve startPosition rest pos1 inString inChar false true
            false true (some pos1)).map
            fun tail => (if preserve then [' ', ' '] else []) ++ tail
        else
          (removeCommentsGo preserve startPosition rest pos1 inString inChar false inComment
            false false commentStart).map (c :: ·)
      else if c = '*' && inComment then
        if rest.head? = some '/' then
          (removeCommentsGo preserve startPosition rest pos1 inString inChar false false
            false true none).map fun tail => (if preserve then [' ', ' '] else []) ++ tail
        else
          (removeCommentsGo preserve startPosition rest pos1 inString inChar false inComment
            false false commentStart).map fun tail => (if preserve then [' '] else []) ++ tail
      else
        if inComment then
          (removeCommentsGo preserve startPosition rest pos1 inString inChar false inComment
            false false commentStart).map fun tail =>
              (if preserve then [if c = '\n' then '\n' else ' '] else []) ++ tail
        else
          (removeCommentsGo preserve startPosition rest pos1 inString inChar false inComment
            false false commentStart).map (c :: ·)

/-- Preprocessor::remove_comments_from_whole_source. -/
def Preprocessor.removeCommentsFromWholeSource (preserve : Bool) (source : String)
    (startPosition : Position) : Except PreprocessorError String :=
  (removeCommentsGo preserve startPosition source.data startPosition false false false false
    false false none).map fun out => ⟨out⟩

/-- Preprocessor::parse_directive: a line is a directive when its first
non-blank character is a hash; the trimmed line is what gets processed. -/
def Preprocessor.parseDirective (line : String) : Option String :=
  let trimmed := rustTrimStart line
  if trimmed.data.head? = some '#' then some trimmed else none

/-- Preprocessor::is_section_active: conjunction of all active flags on the
condition stack. -/
def Preprocessor.isSectionActive (stack : List ConditionState) : Bool :=
  stack.foldl
    (fun active st =>
      match st with
      | .IfDef a => active && a
      | .IfNDef a => active && a)
    true

/-- Preprocessor::process_directive.  The Rust Vec used as the condition
stack pushes, pops and mutates at its end; the list here keeps the top of
the stack at its head, an order-isomorphic model (is_section_active folds
the whole stack commutatively). -/
def Preprocessor.processDirective (supportConditionals : Bool) (mt : MacroTable)
    (directive : String) (stack : List ConditionState) (pos : Position) :
    Except PreprocessorError (MacroTable × List ConditionState × DirectiveResult) :=
  let parts := rustSplitWhitespace directive
  match parts with
  | [] => .ok (mt, stack, .SkipLine)
  | first :: args =>
    if first = "#define" then
      match args with
      | name :: valueParts =>
        match mt.define name (String.intercalate " " valueParts) with
        | .ok mt1 => .ok (mt1, stack, .SkipLine)
        | .error e => .error e
      | [] => .error (.InvalidDirective pos directive "Missing macro name")
    else if first = "#undef" then
      match args with
      | name :: _ => .ok (mt.undefine name, stack, .SkipLine)
      | [] => .error (.InvalidDirective pos directive "Missing macro name")
    else if first = "#ifdef" then
      if !supportConditionals then .ok (mt, stack, .SkipLine)
      else
        match args with
        | name :: _ => .ok (mt, .IfDef (mt.isDefined name) :: stack, .SkipLine)
        | [] => .error (.InvalidDirective pos directive "Missing condition")
    else if first = "#ifndef" then
      if !supportConditionals then .ok (mt, stack, .SkipLine)
      else
        match args with
        | name :: _ => .ok (mt, .IfNDef (!mt.isDefined name) :: stack, .SkipLine)
        | [] => .error (.InvalidDirective pos directive "Missing condition")
    else if first = "#endif" then
      if !supportConditionals then .ok (mt, stack, .SkipLine)
      else
        match stack with
        | [] => .error (.UnmatchedEndif pos)
        | _ :: rest => .ok (mt, rest, .SkipLine)
    else if first = "#" then .ok (mt, stack, .SkipLine)
    else if first = "#else" then
      if !supportConditionals then .ok (mt, stack, .SkipLine)
      else
        match stack with
        | top :: rest => .ok (mt, top.flip :: rest, .SkipLine)
        | [] => .error (.UnmatchedElse pos)
    else .ok (mt, stack, .ProcessLine directive)

/-- One line of output prepended to the result of processing the remaining
lines (the Rust loop pushes onto a growing result string; this recursion
builds the same string back to front). -/
def prependOut (pre : String) :
    Except PreprocessorError (String × MacroTable × List ConditionState) →
      Except PreprocessorError (String × MacroTable × List ConditionState)
  | .ok (out, mt, stack) => .ok (pre ++ out, mt, stack)
  | .error e => .error e

/-- The per-line loop of Preprocessor::process, after comment removal: each
line is paired with its 0-based index (the reported position is index+1);
directive lines go through process_directive before any activation check,
a ProcessLine result is emitted verbatim with a trailing newline, and a
SkipLine result emits nothing; non-directive lines inside an inactive
section become a bare newline when preserving line numbers, and active
lines are macro-expanded (threading the macro table, whose expansion stack
expand mutates) and appended with a trailing newline.  Returns the
accumulated output together with the final macro table and condition
stack.  The dead Continue arm of DirectiveResult falls through to the same
activation-and-expansion handling as a non-directive line, as in the
source. -/
def Preprocessor.processLinesGo (preserve supportConditionals : Bool) :
    MacroTable → List ConditionState → Nat → List String →
      Except PreprocessorError (String × MacroTable × List ConditionState)
  | mt, stack, _, [] => .ok ("", mt, stack)
  | mt, stack, lineNum, line :: rest =>
    let pos : Position := ⟨lineNum + 1, 1⟩
    match Preprocessor.parseDirective line with
    | some directive =>
      match Preprocessor.processDirective supportConditionals mt directive stack pos with
      | .error e => .error e
      | .ok (mt1, stack1, .SkipLine) =>
        Preprocessor.processLinesGo preserve supportConditionals mt1 stack1 (lineNum + 1) rest
      | .ok (mt1, stack1, .ProcessLine processed) =>
        prependOut (processed ++ "\n")
          (Preprocessor.processLinesGo preserve supportConditionals mt1 stack1
            (lineNum + 1) rest)
      | .ok (mt1, stack1, .Continue) =>
        if !Preprocessor.isSectionActive stack1 then
          prependOut (if preserve then "\n" else "")
            (Preprocessor.processLinesGo preserve supportConditionals mt1 stack1
              (lineNum + 1) rest)
        else
          match mt1.expand line with
          | (.error e, _) => .error e
          | (.ok expanded, mt2) =>
            prependOut (expanded ++ "\n")
              (Preprocessor.processLinesGo preserve supportConditionals mt2 stack1
                (lineNum + 1) rest)
    | none =>
      if !Preprocessor.isSectionActive stack then
        prependOut (if preserve then "\n" else "")
          (Preprocessor.processLinesGo preserve supportConditionals mt stack
            (lineNum + 1) rest)
      else
        match mt.expand line with
        | (.error e, _) => .error e
        | (.ok expanded, mt1) =>
          prependOut (expanded ++ "\n")
            (Preprocessor.processLinesGo preserve supportConditionals mt1 stack
              (lineNum + 1) rest)

theorem processLinesGo_nil (p sc : Bool) (mt : MacroTable) (st : List ConditionState)
    (n : Nat) : Preprocessor.processLinesGo p sc mt st n [] = .ok ("", mt, st) := rfl

theorem processLinesGo_skip (p sc : Bool) (mt mt1 : MacroTable)
    (st st1 : List ConditionState) (n : Nat) (line d : String) (rest : List String)
    (hd : Preprocessor.parseDirective line = some d)
    (hp : Preprocessor.processDirective sc mt d st ⟨n + 1, 1⟩ = .ok (mt1, st1, .SkipLine)) :
    Preprocessor.processLinesGo p sc mt st n (line :: rest) =
      Preprocessor.processLinesGo p sc mt1 st1 (n + 1) rest := by
  simp [Preprocessor.processLinesGo, hd, hp]

theorem processLinesGo_processLine (p sc : Bool) (mt mt1 : MacroTable)
    (st st1 : List ConditionState) (n : Nat) (line d pr : String) (rest : List String)
    (hd : Preprocessor.parseDirective line = some d)
    (hp : Preprocessor.processDirective sc mt d st ⟨n + 1, 1⟩ =
      .ok (mt1, st1, .ProcessLine pr)) :
    Preprocessor.processLinesGo p sc mt st n (line :: rest) =
      prependOut (pr ++ "\n") (Preprocessor.processLinesGo p sc mt1 st1 (n + 1) rest) := by
  simp [Preprocessor.processLinesGo, hd, hp]

theorem processLinesGo_directive_error (p sc : Bool) (mt : MacroTable)
    (st : List ConditionState) (n : Nat) (line d : String) (rest : List String)
    (e : PreprocessorError)
    (hd : Preprocessor.parseDirective line = some d)
    (hp : Preprocessor.processDirective sc mt d st ⟨n + 1, 1⟩ = .error e) :
    Preprocessor.processLinesGo p sc mt st n (line :: rest) = .error e := by
  simp [Preprocessor.processLinesGo, hd, hp]

theorem processLinesGo_inactive (p sc : Bool) (mt : MacroTable)
    (st : List ConditionState) (n : Nat) (line : String) (rest : List String)
    (hd : Preprocessor.parseDirective line = none)
    (ha : Preprocessor.isSectionActive st = false) :
    Preprocessor.processLinesGo p sc mt st n (line :: rest) =
      prependOut (if p then "\n" else "")
        (Preprocessor.processLinesGo p sc mt st (n + 1) rest) := by
  simp [Preprocessor.processLinesGo, hd, ha]

theorem processLinesGo_active (p sc : Bool) (mt mt1 : MacroTable)
    (st : List ConditionState) (n : Nat) (line expanded : String) (rest : List String)
    (hd : Preprocessor.parseDirective line = none)
    (ha : Preprocessor.isSectionActive st = true)
    (he : mt.expand line = (.ok expanded, mt1)) :
    Preprocessor.processLinesGo p sc mt st n (line :: rest) =
      prependOut (expanded ++ "\n")
        (Preprocessor.processLinesGo p sc mt1 st (n + 1) rest) := by
  simp [Preprocessor.processLinesGo, hd, ha, he]

theorem processLinesGo_expand_error (p sc : Bool) (mt mt1 : MacroTable)
    (st : List ConditionState) (n : Nat) (line : String) (rest : List String)
    (e : PreprocessorError)
    (hd : Preprocessor.parseDirective line = none)
    (ha : Preprocessor.isSectionActive st = true)
    (he : mt.expand line = (.error e, mt1)) :
    Preprocessor.processLinesGo p sc mt st n (line :: rest) = .error e := by
  simp [Preprocessor.processLinesGo, hd, ha, he]

/-- Preprocessor::process with explicit flags: strip comments from the whole
source, run the per-line loop from an empty condition stack, and reject a
non-empty final condition stack as an unterminated conditional. -/
def Preprocessor.processWith (mt : MacroTable) (preserve supportConditionals : Bool)
    (source : String) : Except PreprocessorError String :=
  match Preprocessor.removeCommentsFromWholeSource preserve source Position.start with
  | .error e => .error e
  | .ok processedSource =>
    match Preprocessor.processLinesGo preserve supportConditionals mt [] 0
        (rustLines processedSource) with
    | .error e => .error e
    | .ok (result, _, stack) =>
      if !stack.isEmpty then .error (.UnterminatedConditional ⟨1, 1⟩)
      else .ok result

/-- Preprocessor::process, with the preserve_line_numbers and
support_conditionals flags at their Preprocessor::new defaults (both true)
and the macro table holding whatever Preprocessor::define installed. -/
def Preprocessor.process (mt : MacroTable) (source : String) :
    Except PreprocessorError String :=
  Preprocessor.processWith mt true true source

/-- Lexer error taxonomy (src/lexer/error.rs). -/
inductive LexerError
  | UnexpectedCharacter (position : Position) (character : Char)
  | UnterminatedString (position : Position)
  | InvalidNumber (position : Position) (lexeme : String)
  | IdentifierTooLong (position : Position)
  | UnterminatedComment (position : Position)
  | InvalidEscapeSequence (position : Position) (sequence : String)
  | EmptyInput (position : Position)
deriving DecidableEq, Repr

/-- Error-recovery context (diagnostic only; src/lexer/error.rs). -/
structure ErrorRecovery where
  skippedChars : Nat
  recovered : Bool
  lastErrorPosition : Option Position
deriving DecidableEq, Repr

/-- ErrorRecovery::new. -/
def ErrorRecovery.new : ErrorRecovery := ⟨0, false, none⟩

/-- ErrorRecovery::skip_char. -/
def ErrorRecovery.skipChar (r : ErrorRecovery) : ErrorRecovery :=
  { r with skippedChars := r.skippedChars + 1 }

/-- ErrorRecovery::mark_recovered. -/
def ErrorRecovery.markRecovered (r : ErrorRecovery) (pos : Position) : ErrorRecovery :=
  { r with recovered := true, lastErrorPosition := some pos }

/-- Token kinds (src/common/token.rs).  FloatLiteral records the lexeme it
was parsed from rather than an f64: the claims never inspect float values,
and the f64 is a function of the lexeme. -/
inductive TokenKind
  | KwIf
  | KwElse
  | KwWhile
  | KwFor
  | KwInt
  | KwFloat
  | KwBool
  | KwReturn
  | KwTrue
  | KwFalse
  | KwVoid
  | KwStruct
  | KwFn
  | Identifier (name : String)
  | IntLiteral (value : Int)
  | FloatLiteral (lexeme : String)
  | StringLiteral (value : String)
  | BoolLiteral (value : Bool)
  | Plus
  | Minus
  | Asterisk
  | Slash
  | Percent
  | EqEq
  | BangEq
  | Lt
  | LtEq
  | Gt
  | GtEq
  | AmpAmp
  | PipePipe
  | Bang
  | Eq
  | PlusEq
  | MinusEq
  | AsteriskEq
  | SlashEq
  | LParen
  | RParen
  | LBrace
  | RBrace
  | LBracket
  | RBracket
  | Semicolon
  | Comma
  | Colon
  | EndOfFile
deriving DecidableEq, Repr

/-- A token: kind, originating lexeme and start position. -/
structure Token where
  kind : TokenKind
  lexeme : String
  position : Position
deriving DecidableEq, Repr

/-- Token::eof. -/
def Token.eof (position : Position) : Token := ⟨.EndOfFile, "", position⟩

/-- Token::is_eof. -/
def Token.isEof (t : Token) : Bool :=
  match t.kind with
  | .EndOfFile => true
  | _ => false

/-- Rust i32::from_str: an optional sign, then at least one ASCII digit, and
the signed value must fit in 32 bits. -/
def parseDigits (ds : List Char) : Option Nat :=
  match ds with
  | [] => none
  | _ =>
    ds.foldl
      (fun acc c =>
        match acc with
        | none => none
        | some n => if c.isDigit then some (n * 10 + (c.toNat - 48)) else none)
      (some 0)

/-- Rust str::parse::<i32>. -/
def parseI32 (cs : List Char) : Option Int :=
  let sd : Int × List Char :=
    match cs with
    | '+' :: rest => (1, rest)
    | '-' :: rest => (-1, rest)
    | _ => (1, cs)
  match parseDigits sd.2 with
  | none => none
  | some n =>
    let v : Int := sd.1 * n
    if -2147483648 ≤ v ∧ v ≤ 2147483647 then some v else none

/-- Scanner state (src/lexer/scanner.rs): the remaining characters of the
Peekable char iterator, the two tracked positions, the accumulated lexeme
and the diagnostic error-recovery context. -/
structure Scanner where
  chars : List Char
  currentPosition : Position
  startPosition : Position
  currentLexeme : List Char
  errorRecovery : ErrorRecovery
deriving DecidableEq, Repr

/-- Scanner::new. -/
def Scanner.new (source : String) : Scanner :=
  ⟨source.data, Position.start, Position.start, [], ErrorRecovery.new⟩

/-- Position effect of Scanner::advance on one consumed character: a
newline starts a new line, anything else (including a bare carriage return)
advances the column. -/
def advancePos (c : Char) (pos : Position) : Position :=
  if c = '\n' then pos.newLine else pos.advanceColumn 1

/-- Lexeme effect of Scanner::advance: the character is appended unless it
is whitespace. -/
def advanceLex (c : Char) (lex : List Char) : List Char :=
  if rustIsWhitespace c then lex else lex ++ [c]

/-- Scanner::advance: consume one character, updating position and lexeme. -/
def Scanner.advance (s : Scanner) : Option Char × Scanner :=
  match s.chars with
  | [] => (none, s)
  | c :: rest =>
    (some c,
      { s with
        chars := rest
        currentPosition := advancePos c s.currentPosition
        currentLexeme := advanceLex c s.currentLexeme })

/-- Scanner::peek. -/
def Scanner.peekChar (s : Scanner) : Option Char := s.chars.head?

/-- Scanner::is_at_end. -/
def Scanner.isAtEnd (s : Scanner) : Bool := s.chars.isEmpty

/-- Scanner::matches: consume the next character exactly when it equals the
expected one. -/
def Scanner.matchesChar (s : Scanner) (expected : Char) : Bool × Scanner :=
  match s.chars.head? with
  | some ch => if ch = expected then (true, (s.advance).2) else (false, s)
  | none => (false, s)

/-- Scanner::start_token. -/
def Scanner.startToken (s : Scanner) : Scanner :=
  { s with
    startPosition := s.currentPosition
    currentLexeme := []
    errorRecovery := ErrorRecovery.new }

/-- Scanner::make_token. -/
def Scanner.makeToken (s : Scanner) (kind : TokenKind) : Token :=
  ⟨kind, ⟨s.currentLexeme⟩, s.startPosition⟩

/-- Scanner::advance_whitespace: like advance but never touches the lexeme,
and a carriage return directly followed by a newline consumes both as one
line break. -/
def Scanner.advanceWhitespace (s : Scanner) : Option Char × Scanner :=
  match s.chars with
  | [] => (none, s)
  | c :: rest =>
    if c = '\n' then
      (some c, { s with chars := rest, currentPosition := s.currentPosition.newLine })
    else if c = '\r' then
      if rest.head? = some '\n' then
        (some c, { s with chars := rest.tail, currentPosition := s.currentPosition.newLine })
      else
        (some c, { s with chars := rest, currentPosition := s.currentPosition.advanceColumn 1 })
    else
      (some c, { s with chars := rest, currentPosition := s.currentPosition.advanceColumn 1 })

theorem Scanner.advance_chars (s : Scanner) : (s.advance).2.chars = s.chars.tail := by
  obtain ⟨cs, cp, sp, lx, er⟩ := s
  cases cs <;> simp [Scanner.advance]

theorem Scanner.advance_length_le (s : Scanner) :
    (s.advance).2.chars.length ≤ s.chars.length := by
  rw [Scanner.advance_chars, List.length_tail]
  omega

theorem Scanner.advance_length_lt (s : Scanner) (h : s.chars ≠ []) :
    (s.advance).2.chars.length < s.chars.length := by
  rw [Scanner.advance_chars, List.length_tail]
  cases hc : s.chars with
  | nil => exact absurd hc h
  | cons c rest => simp [hc]

theorem Scanner.advanceWhitespace_length_lt (s : Scanner) (h : s.chars ≠ []) :
    (s.advanceWhitespace).2.chars.length < s.chars.length := by
  obtain ⟨cs, cp, sp, lx, er⟩ := s
  cases cs with
  | nil => exact absurd rfl h
  | cons c rest =>
    simp only [Scanner.advanceWhitespace]
    split
    · simp
    · split
      · split
        · simp only [List.length_cons]
          have := List.length_tail rest
          omega
        · simp
      · simp

theorem Scanner.matchesChar_length_le (s : Scanner) (e : Char) :
    ((s.matchesChar e).2).chars.length ≤ s.chars.length := by
  have hadv := Scanner.advance_chars s
  obtain ⟨cs, cp, sp, lx, er⟩ := s
  cases cs with
  | nil => simp [Scanner.matchesChar]
  | cons c rest =>
    by_cases hce : c = e
    · subst hce
      simp [Scanner.matchesChar, hadv]
    · simp [Scanner.matchesChar, hce]

theorem Scanner.matchesChar_true_length_lt (s : Scanner) (e : Char)
    (h : (s.matchesChar e).1 = true) :
    ((s.matchesChar e).2).chars.length < s.chars.length := by
  have hadv := Scanner.advance_chars s
  obtain ⟨cs, cp, sp, lx, er⟩ := s
  cases cs with
  | nil => simp [Scanner.matchesChar] at h
  | cons c rest =>
    by_cases hce : c = e
    · subst hce
      simp [Scanner.matchesChar, hadv]
    · simp [Scanner.matchesChar, hce] at h

/-- Loop of Scanner::skip_whitespace with Scanner::advance_whitespace
inlined, acting on the character cursor and current position (the lexeme is
untouched by advance_whitespace): consume whitespace, treating a carriage
return directly followed by a newline as one line break.  The newline of
such a pair is consumed by the carriage return's step; the Boolean flag set
for exactly that one step makes the next character disappear silently, so
every step consumes one list cell. -/
def skipWsChars : List Char → Position → Bool → List Char × Position
  | [], pos, _ => ([], pos)
  | _ :: rest, pos, true => skipWsChars rest pos false
  | c :: rest, pos, false =>
    if rustIsWhitespace c then
      if c = '\n' then skipWsChars rest pos.newLine false
      else if c = '\r' then
        if rest.head? = some '\n' then skipWsChars rest pos.newLine true
        else skipWsChars rest (pos.advanceColumn 1) false
      else skipWsChars rest (pos.advanceColumn 1) false
    else (c :: rest, pos)

/-- Scanner::skip_whitespace: skip whitespace, then clear the lexeme and
move the token start to the current position. -/
def Scanner.skipWhitespace (s : Scanner) : Scanner :=
  let r := skipWsChars s.chars s.currentPosition false
  { s with chars := r.1, currentPosition := r.2, currentLexeme := [], startPosition := r.2 }

/-- Line-comment loop of Scanner::skip_comments with Scanner::advance
inlined: consume (into position and lexeme) until a newline, which is left
unconsumed. -/
def skipLineCommentChars : List Char → Position → List Char →
    List Char × Position × List Char
  | c :: rest, pos, lex =>
    if c = '\n' then (c :: rest, pos, lex)
    else skipLineCommentChars rest (advancePos c pos) (advanceLex c lex)
  | [], pos, lex => ([], pos, lex)

/-- Block-comment loop of Scanner::skip_comments with its nesting depth
counter, written as the execution table of the Rust loop over the next one
or two characters: the short-circuit condition matches('/') && matches('*')
consumes the '/' even when the '*' does not follow, and the subsequent
else-if and else arms then consume one further character, so every
iteration consumes two characters when at least two remain, except that a
leading character other than '/' or '*' is consumed alone.  Reaching end of
input at positive depth is an unterminated comment at the token start. -/
def skipBlockChars (startPos : Position) :
    List Char → Nat → Position → List Char →
      Except LexerError Unit × List Char × Position × List Char
  | cs, 0, pos, lex => (.ok (), cs, pos, lex)
  | [], _ + 1, pos, lex => (.error (.UnterminatedComment startPos), [], pos, lex)
  | '/' :: '*' :: rest, depth + 1, pos, lex =>
    skipBlockChars startPos rest (depth + 2)
      (advancePos '*' (advancePos '/' pos)) (advanceLex '*' (advanceLex '/' lex))
  | '*' :: '/' :: rest, depth + 1, pos, lex =>
    skipBlockChars startPos rest depth
      (advancePos '/' (advancePos '*' pos)) (advanceLex '/' (advanceLex '*' lex))
  | '/' :: c2 :: rest, depth + 1, pos, lex =>
    skipBlockChars startPos rest (depth + 1)
      (advancePos c2 (advancePos '/' pos)) (advanceLex c2 (advanceLex '/' lex))
  | '*' :: c2 :: rest, depth + 1, pos, lex =>
    skipBlockChars startPos rest (depth + 1)
      (advancePos c2 (advancePos '*' pos)) (advanceLex c2 (advanceLex '*' lex))
  | c :: rest, depth + 1, pos, lex =>
    skipBlockChars startPos rest (depth + 1) (advancePos c pos) (advanceLex c lex)

/-- Scanner::skip_comments.  The two conditions evaluate their matches
sequentially with Rust short-circuit semantics; in particular a first
matches('/') that succeeded has consumed the '/' before the second
condition re-tests matches('/'), which therefore can never succeed, making
the block-comment branch unreachable from next_token.  The fallthrough
clears the lexeme and resets the current position to the token start
without restoring the consumed characters. -/
def Scanner.skipComments (s : Scanner) : Except LexerError Unit × Scanner :=
  let m1 := s.matchesChar '/'
  if m1.1 && (m1.2.matchesChar '/').1 then
    let s2 := (m1.2.matchesChar '/').2
    let r := skipLineCommentChars s2.chars s2.currentPosition s2.currentLexeme
    (.ok (), { s2 with chars := r.1, currentPosition := r.2.1, currentLexeme := r.2.2 })
  else
    let s2 := if m1.1 then (m1.2.matchesChar '/').2 else m1.2
    let m3 := s2.matchesChar '/'
    if m3.1 && (m3.2.matchesChar '*').1 then
      let s4 := (m3.2.matchesChar '*').2
      let r := skipBlockChars s4.startPosition s4.chars 1 s4.currentPosition s4.currentLexeme
      (r.1, { s4 with chars := r.2.1, currentPosition := r.2.2.1, currentLexeme := r.2.2.2 })
    else
      let s4 := if m3.1 then (m3.2.matchesChar '*').2 else m3.2
      (.ok (), { s4 with currentLexeme := [], currentPosition := s4.startPosition })

/-- String-literal loop of Scanner::scan_string with Scanner::advance
inlined.  A backslash consumes the following character whatever it is (all
escape arms of the Rust match advance); an unescaped newline or end of
input is an unterminated string positioned at the opening quote.  On the
closing quote the state includes it in the lexeme. -/
def scanStringChars (startPos : Position) : List Char → Position → List Char →
    Except LexerError Unit × List Char × Position × List Char
  | c :: rest, pos, lex =>
    if c = '"' then (.ok (), rest, advancePos c pos, advanceLex c lex)
    else if c = '\\' then
      match rest with
      | [] => (.error (.UnterminatedString startPos), [], advancePos c pos, advanceLex c lex)
      | d :: rest2 =>
        scanStringChars startPos rest2 (advancePos d (advancePos c pos))
          (advanceLex d (advanceLex c lex))
    else if c = '\n' then (.error (.UnterminatedString startPos), c :: rest, pos, lex)
    else scanStringChars startPos rest (advancePos c pos) (advanceLex c lex)
  | [], pos, lex => (.error (.UnterminatedString startPos), [], pos, lex)

/-- Scanner::scan_string.  The content is the lexeme without its first and
last characters (the Rust byte-slice current_lexeme[1..len-1]: the sliced
characters are the one-byte quotes, so byte slicing and character dropping
agree, and a lexeme of fewer than two bytes is exactly a lexeme of fewer
than two characters since its only possible character is the quote). -/
def Scanner.scanString (s : Scanner) : Except LexerError Token × Scanner :=
  let r := scanStringChars s.startPosition s.chars s.currentPosition s.currentLexeme
  let s1 := { s with chars := r.2.1, currentPosition := r.2.2.1, currentLexeme := r.2.2.2 }
  match r.1 with
  | .ok _ =>
    let content : List Char :=
      if s1.currentLexeme.length ≥ 2 then (s1.currentLexeme.drop 1).dropLast else []
    (.ok (s1.makeToken (.StringLiteral ⟨content⟩)), s1)
  | .error e => (.error e, s1)

/-- Digit loop of Scanner::scan_number with Scanner::advance inlined: digits
are consumed, the first dot switches to float mode, digits after it set
has_digit_after_dot, and anything else stops the scan. -/
def scanNumberChars : List Char → Position → List Char → Bool → Bool →
    List Char × Position × List Char × Bool × Bool
  | c :: rest, pos, lex, isFloat, hasDigitAfterDot =>
    if c.isDigit then
      scanNumberChars rest (advancePos c pos) (advanceLex c lex) isFloat
        (if isFloat then true else hasDigitAfterDot)
    else if c = '.' && !isFloat then
      scanNumberChars rest (advancePos c pos) (advanceLex c lex) true hasDigitAfterDot
    else (c :: rest, pos, lex, isFloat, hasDigitAfterDot)
  | [], pos, lex, isFloat, hasDigitAfterDot => ([], pos, lex, isFloat, hasDigitAfterDot)

/-- Scanner::scan_number.  A float with no digit after the dot, or an
integer lexeme that does not parse into the i32 range, is an InvalidNumber
(the Rust has_minus distinction selects between two identical error
constructions).  A float lexeme here always parses (it is sign, digits, one
dot, at least one digit), so the float arm is always a token; the f64 value
is a function of the recorded lexeme. -/
def Scanner.scanNumber (s : Scanner) : Except LexerError Token × Scanner :=
  let hasMinus := s.currentLexeme = ['-']
  let r := scanNumberChars s.chars s.currentPosition s.currentLexeme false false
  let s1 := { s with chars := r.1, currentPosition := r.2.1, currentLexeme := r.2.2.1 }
  let isFloat := r.2.2.2.1
  let hasDigitAfterDot := r.2.2.2.2
  if isFloat && !hasDigitAfterDot then
    (.error (.InvalidNumber s1.startPosition ⟨s1.currentLexeme⟩), s1)
  else if isFloat then
    (.ok (s1.makeToken (.FloatLiteral ⟨s1.currentLexeme⟩)), s1)
  else
    match parseI32 s1.currentLexeme with
    | some value => (.ok (s1.makeToken (.IntLiteral value)), s1)
    | none =>
      if hasMinus then (.error (.InvalidNumber s1.startPosition ⟨s1.currentLexeme⟩), s1)
      else (.error (.InvalidNumber s1.startPosition ⟨s1.currentLexeme⟩), s1)

/-- Identifier loop of Scanner::scan_identifier_or_keyword with
Scanner::advance inlined: consume ASCII letters, digits and underscores. -/
def scanIdentChars : List Char → Position → List Char →
    List Char × Position × List Char
  | c :: rest, pos, lex =>
    if c.isAlphanum || c = '_' then
      scanIdentChars rest (advancePos c pos) (advanceLex c lex)
    else (c :: rest, pos, lex)
  | [], pos, lex => ([], pos, lex)

/-- Rust String::len of the lexeme: its UTF-8 byte length. -/
def utf8Len (cs : List Char) : Nat := cs.foldl (fun n c => n + c.utf8Size) 0

/-- Scanner::scan_identifier_or_keyword: consume the identifier, reject
lexemes longer than 255 bytes, then classify against the keyword table
(true and false become BoolLiteral tokens). -/
def Scanner.scanIdentifierOrKeyword (s : Scanner) : Except LexerError Token × Scanner :=
  let r := scanIdentChars s.chars s.currentPosition s.currentLexeme
  let s1 := { s with chars := r.1, currentPosition := r.2.1, currentLexeme := r.2.2 }
  if utf8Len s1.currentLexeme > 255 then
    (.error (.IdentifierTooLong s1.startPosition), s1)
  else
    let lex : String := ⟨s1.currentLexeme⟩
    let token :=
      if lex = "if" then s1.makeToken .KwIf
      else if lex = "else" then s1.makeToken .KwElse
      else if lex = "while" then s1.makeToken .KwWhile
      else if lex = "for" then s1.makeToken .KwFor
      else if lex = "int" then s1.makeToken .KwInt
      else if lex = "float" then s1.makeToken .KwFloat
      else if lex = "bool" then s1.makeToken .KwBool
      else if lex = "return" then s1.makeToken .KwReturn
      else if lex = "true" then s1.makeToken (.BoolLiteral true)
      else if lex = "false" then s1.makeToken (.BoolLiteral false)
      else if lex = "void" then s1.makeToken .KwVoid
      else if lex = "struct" then s1.makeToken .KwStruct
      else if lex = "fn" then s1.makeToken .KwFn
      else s1.makeToken (.Identifier lex)
    (.ok token, s1)

/-- The comment-skipping loop at the top of Scanner::next_token: while the
next character is a '/', a cloned lookahead iterator inspects the character
after it; on '/' or '*' the loop runs skip_comments followed by
skip_whitespace and repeats, marking recovery and propagating an
unterminated-comment error; on anything else (or fewer than two remaining
characters) it stops.  The loop consumes at least one character per
iteration, so the chars.length + 1 budget passed by next_token is never
exhausted. -/
def Scanner.commentLoopF : Nat → Scanner → Except LexerError Unit × Scanner
  | 0, s => (.ok (), s)
  | fuel + 1, s =>
    match s.chars with
    | c :: c2 :: _ =>
      if c = '/' then
        if c2 = '/' || c2 = '*' then
          match s.skipComments with
          | (.ok _, s1) => Scanner.commentLoopF fuel s1.skipWhitespace
          | (.error e, s1) =>
            (.error e,
              { s1 with errorRecovery := s1.errorRecovery.markRecovered s1.startPosition })
        else (.ok (), s)
      else (.ok (), s)
    | _ => (.ok (), s)

/-- Scanner::next_token: reset the token state, skip whitespace and
comments, emit EndOfFile at the end of input, and otherwise dispatch on the
first consumed character of the token. -/
def Scanner.nextToken (s : Scanner) : Except LexerError Token × Scanner :=
  let s0 := (s.startToken).skipWhitespace
  match Scanner.commentLoopF (s0.chars.length + 1) s0 with
  | (.error e, s1) => (.error e, s1)
  | (.ok _, s1) =>
    match s1.chars with
    | [] => (.ok (Token.eof s1.currentPosition), s1)
    | c :: _ =>
      let s2 := { s1 with startPosition := s1.currentPosition, currentLexeme := [] }
      let s3 := (s2.advance).2
      if c = '(' then (.ok (s3.makeToken .LParen), s3)
      else if c = ')' then (.ok (s3.makeToken .RParen), s3)
      else if c = '{' then (.ok (s3.makeToken .LBrace), s3)
      else if c = '}' then (.ok (s3.makeToken .RBrace), s3)
      else if c = '[' then (.ok (s3.makeToken .LBracket), s3)
      else if c = ']' then (.ok (s3.makeToken .RBracket), s3)
      else if c = ';' then (.ok (s3.makeToken .Semicolon), s3)
      else if c = ',' then (.ok (s3.makeToken .Comma), s3)
      else if c = ':' then (.ok (s3.makeToken .Colon), s3)
      else if c = '+' then
        let m := s3.matchesChar '='
        if m.1 then (.ok (m.2.makeToken .PlusEq), m.2)
        else (.ok (s3.makeToken .Plus), s3)
      else if c = '-' then
        match s3.chars.head? with
        | some nextChar =>
          if nextChar.isDigit then s3.scanNumber
          else
            let m := s3.matchesChar '='
            if m.1 then (.ok (m.2.makeToken .MinusEq), m.2)
            else (.ok (s3.makeToken .Minus), s3)
        | none => (.ok (s3.makeToken .Minus), s3)
      else if c = '*' then
        let m := s3.matchesChar '='
        if m.1 then (.ok (m.2.makeToken .AsteriskEq), m.2)
        else (.ok (s3.makeToken .Asterisk), s3)
      else if c = '/' then
        let m := s3.matchesChar '='
        if m.1 then (.ok (m.2.makeToken .SlashEq), m.2)
        else (.ok (s3.makeToken .Slash), s3)
      else if c = '%' then (.ok (s3.makeToken .Percent), s3)
      else if c = '!' then
        let m := s3.matchesChar '='
        if m.1 then (.ok (m.2.makeToken .BangEq), m.2)
        else (.ok (s3.makeToken .Bang), s3)
      else if c = '=' then
        let m := s3.matchesChar '='
        if m.1 then (.ok (m.2.makeToken .EqEq), m.2)
        else (.ok (s3.makeToken .Eq), s3)
      else if c = '<' then
        let m := s3.matchesChar '='
        if m.1 then (.ok (m.2.makeToken .LtEq), m.2)
        else (.ok (s3.makeToken .Lt), s3)
      else if c = '>' then
        let m := s3.matchesChar '='
        if m.1 then (.ok (m.2.makeToken .GtEq), m.2)
        else (.ok (s3.makeToken .Gt), s3)
      else if c = '&' then
        let m := s3.matchesChar '&'
        if m.1 then (.ok (m.2.makeToken .AmpAmp), m.2)
        else (.error (.UnexpectedCharacter s3.startPosition '&'), s3)
      else if c = '|' then
        let m := s3.matchesChar '|'
        if m.1 then (.ok (m.2.makeToken .PipePipe), m.2)
        else (.error (.UnexpectedCharacter s3.startPosition '|'), s3)
      else if c = '"' then s3.scanString
      else if c.isDigit then s3.scanNumber
      else if c.isAlpha || c = '_' then s3.scanIdentifierOrKeyword
      else (.error (.UnexpectedCharacter s3.startPosition c), s3)

/-- Scanner::peek_token: run next_token against the current state and then
restore every field of the scanner from the saved snapshot. -/
def Scanner.peekToken (s : Scanner) : Except LexerError Token × Scanner :=
  let savedPosition := s.currentPosition
  let savedStart := s.startPosition
  let savedLexeme := s.currentLexeme
  let savedChars := s.chars
  let savedRecovery := s.errorRecovery
  let r := s.nextToken
  (r.1,
    { r.2 with
      currentPosition := savedPosition
      startPosition := savedStart
      currentLexeme := savedLexeme
      chars := savedChars
      errorRecovery := savedRecovery })

/-- The loop of Scanner::scan_all, structurally recursive on a fuel budget:
append tokens until (and including) EndOfFile; on an error, record it, mark
recovery at the token start, and advance one character (counting it as
skipped) before retrying.  scanAll passes budget chars.length + 2, which
scanAllGo_spec shows is never exhausted: every erroneous or token-producing
call of next_token consumes at least one character. -/
def Scanner.scanAllGo : Nat → Scanner → List Token × List LexerError
  | 0, _ => ([], [])
  | fuel + 1, s =>
    match s.nextToken with
    | (.ok t, s1) =>
      if t.isEof then ([t], [])
      else
        let r := Scanner.scanAllGo fuel s1
        (t :: r.1, r.2)
    | (.error e, s1) =>
      let s2 := { s1 with errorRecovery := s1.errorRecovery.markRecovered s1.startPosition }
      let s3 :=
        match s2.advance with
        | (some _, sa) => { sa with errorRecovery := sa.errorRecovery.skipChar }
        | (none, sa) => sa
      let r := Scanner.scanAllGo fuel s3
      (r.1, e :: r.2)

/-- Scanner::scan_all. -/
def Scanner.scanAll (s : Scanner) : List Token × List LexerError :=
  Scanner.scanAllGo (s.chars.length + 2) s

/-! ### Expansion-stack lemmas (MacroTable::expand) -/

theorem hsRemove_hsInsert (w : String) (stack : List String)
    (h : ¬ stack.contains w = true) : hsRemove w (hsInsert w stack) = stack := by
  simp only [hsInsert, if_neg h, hsRemove]
  exact List.erase_cons_head w stack

/-- On the Ok path, expand_internal removes from the expansion stack exactly
what it inserted: the stack comes back unchanged. -/
theorem expandGo_ok_stack (macros : List (String × MacroDefinition)) :
    ∀ (fuel : Nat) (stack : List String) (cs word : List Char) (inId : Bool)
      (out : List Char) (stack' : List String),
      expandGo macros fuel stack cs word inId = (.ok out, stack') → stack' = stack := by
  intro fuel
  induction fuel with
  | zero => intro _ _ _ _ _ _ h; simp [expandGo] at h
  | succ fuel ih =>
    intro stack cs word inId out stack' h
    match cs with
    | [] =>
      rw [expandGo] at h
      split at h
      · split at h
        · injection h with h1 h2; exact h2.symm
        · rename_i md hm
          split at h
          · simp at h
          · rename_i hc
            split at h
            · rename_i expanded stack1 hrec
              injection h with h1 h2
              rw [← h2, ih _ _ _ _ _ _ hrec]
              exact hsRemove_hsInsert _ _ hc
            · simp at h
      · injection h with h1 h2; exact h2.symm
    | c :: rest =>
      rw [expandGo] at h
      split at h
      · exact ih _ _ _ _ _ _ h
      · split at h
        · split at h
          · split at h
            · rename_i out1 stack1 hrec
              injection h with h1 h2
              rw [← h2]; exact ih _ _ _ _ _ _ hrec
            · simp at h
          · rename_i md hm
            split at h
            · simp at h
            · rename_i hc
              split at h
              · simp at h
              · rename_i expanded stack1 hrec1
                split at h
                · rename_i out2 stack2 hrec2
                  injection h with h1 h2
                  rw [← h2, ih _ _ _ _ _ _ hrec2, ih _ _ _ _ _ _ hrec1]
                  exact hsRemove_hsInsert _ _ hc
                · simp at h
        · split at h
          · rename_i out1 stack1 hrec
            injection h with h1 h2
            rw [← h2]; exact ih _ _ _ _ _ _ hrec
          · simp at h

/-! ### Claim C2 -/

/-- Claim C2, as provable from the code: when a top-level MacroTable::expand
call returns Ok, the table comes back with its expansion stack exactly as it
was (so, started empty, it ends empty and later expand calls are
unaffected).  The Err(MacroRecursion) half of the claim is false: the early
return skips the stack cleanup, see the counterexample. -/
theorem C2_expand_restores_stack_on_ok (t : MacroTable) (input out : String)
    (t' : MacroTable) (h : t.expand input = (.ok out, t')) : t' = t := by
  rw [MacroTable.expand] at h
  split at h
  · rename_i o stack1 hrec
    injection h with h1 h2
    rw [← h2, expandGo_ok_stack _ _ _ _ _ _ _ _ hrec]
  · simp at h

/-- Concrete instance of C2_expand_restores_stack_on_ok: expanding "MAX"
with MAX defined as 100 succeeds and leaves the table (stack included)
unchanged. -/
theorem C2_witness :
    (MacroTable.expand ⟨[("MAX", ⟨"MAX", "100"⟩)], []⟩ "MAX").2 =
      ⟨[("MAX", ⟨"MAX", "100"⟩)], []⟩ :=
  C2_expand_restores_stack_on_ok ⟨[("MAX", ⟨"MAX", "100"⟩)], []⟩ "MAX" "100"
    (MacroTable.expand ⟨[("MAX", ⟨"MAX", "100"⟩)], []⟩ "MAX").2 (by rfl)

/-- Counterexample to C2 as stated: with the self-referential macro A ↦ A,
the top-level expand of "A" returns Err(MacroRecursion "A") but leaves "A"
on the expansion stack — the stack is not empty after the call.  A
subsequent top-level expand on a table carrying that leaked stack then
fails for the now non-cyclic macro A ↦ 1 instead of succeeding. -/
theorem C2_counterexample :
    (MacroTable.expand ⟨[("A", ⟨"A", "A"⟩)], []⟩ "A").1 =
        .error (.MacroRecursion "A") ∧
      (MacroTable.expand ⟨[("A", ⟨"A", "A"⟩)], []⟩ "A").2.expansionStack = ["A"] ∧
      (MacroTable.expand ⟨[("A", ⟨"A", "1"⟩)], ["A"]⟩ "A").1 =
        .error (.MacroRecursion "A") :=
  ⟨by rfl, by rfl, by rfl⟩

/-! ### Claim C1 -/

theorem parseDirective_eq (line d : String)
    (hd : Preprocessor.parseDirective line = some d) : d = rustTrimStart line := by
  rw [Preprocessor.parseDirective] at hd
  split at hd
  · injection hd with h; exact h.symm
  · simp at hd

/-- An unrecognized directive word falls through every branch of
process_directive to the final ProcessLine arm. -/
theorem processDirective_fallback (sc : Bool) (mt : MacroTable) (d : String)
    (st : List ConditionState) (pos : Position) (first : String) (args : List String)
    (hsplit : rustSplitWhitespace d = first :: args)
    (h1 : first ≠ "#define") (h2 : first ≠ "#undef") (h3 : first ≠ "#ifdef")
    (h4 : first ≠ "#ifndef") (h5 : first ≠ "#endif") (h6 : first ≠ "#")
    (h7 : first ≠ "#else") :
    Preprocessor.processDirective sc mt d st pos = .ok (mt, st, .ProcessLine d) := by
  simp [Preprocessor.processDirective, hsplit, h1, h2, h3, h4, h5, h6, h7]

/-- Claim C1, as provable from the code: a line whose trimmed form starts
with '#' but whose first word is no recognized directive is emitted
VERBATIM (the trimmed line plus a newline) with the macro table and
condition stack unchanged and no error — the code reaches the ProcessLine
arm and pushes the line before the activation check and without calling
MacroTable::expand, so, contrary to the claim, no macro expansion is
applied to it (see the counterexample). -/
theorem C1_unrecognized_directive_passthrough (p sc : Bool) (mt : MacroTable)
    (st : List ConditionState) (n : Nat) (line d first : String) (args : List String)
    (rest : List String)
    (hd : Preprocessor.parseDirective line = some d)
    (hsplit : rustSplitWhitespace d = first :: args)
    (h1 : first ≠ "#define") (h2 : first ≠ "#undef") (h3 : first ≠ "#ifdef")
    (h4 : first ≠ "#ifndef") (h5 : first ≠ "#endif") (h6 : first ≠ "#")
    (h7 : first ≠ "#else") :
    Preprocessor.processLinesGo p sc mt st n (line :: rest) =
        prependOut (d ++ "\n") (Preprocessor.processLinesGo p sc mt st (n + 1) rest) ∧
      d = rustTrimStart line :=
  ⟨processLinesGo_processLine p sc mt mt st st n line d d rest hd
      (processDirective_fallback sc mt d st ⟨n + 1, 1⟩ first args hsplit
        h1 h2 h3 h4 h5 h6 h7),
    parseDirective_eq line d hd⟩

/-- Concrete instance of C1_unrecognized_directive_passthrough at the line
"#foo MAX" (with MAX defined): the line is passed through verbatim. -/
theorem C1_witness :
    Preprocessor.processLinesGo true true ⟨[("MAX", ⟨"MAX", "100"⟩)], []⟩ [] 0
          ["#foo MAX"] =
        prependOut ("#foo MAX" ++ "\n")
          (Preprocessor.processLinesGo true true ⟨[("MAX", ⟨"MAX", "100"⟩)], []⟩ [] 1
            []) ∧
      "#foo MAX" = rustTrimStart "#foo MAX" :=
  C1_unrecognized_directive_passthrough true true ⟨[("MAX", ⟨"MAX", "100"⟩)], []⟩ [] 0
    "#foo MAX" "#foo MAX" "#foo" ["MAX"] [] (by rfl) (by rfl)
    (by decide) (by decide) (by decide) (by decide) (by decide) (by decide) (by decide)

/-- Counterexample to C1 as stated: processing "#define MAX 100\n#foo MAX"
emits the unrecognized directive line as "#foo MAX" verbatim, although
MacroTable::expand applied to that line (with MAX defined as 100) yields
"#foo 100" — the emitted line is NOT the macro expansion of the line. -/
theorem C1_counterexample :
    Preprocessor.process MacroTable.new "#define MAX 100\n#foo MAX" =
        .ok "#foo MAX\n" ∧
      (MacroTable.expand ⟨[("MAX", ⟨"MAX", "100"⟩)], []⟩ "#foo MAX").1 =
        .ok "#foo 100" := by
  constructor
  · have hA : Preprocessor.removeCommentsFromWholeSource true
        "#define MAX 100\n#foo MAX" Position.start =
        .ok "#define MAX 100\n#foo MAX" := by rfl
    have hL : rustLines "#define MAX 100\n#foo MAX" =
        ["#define MAX 100", "#foo MAX"] := by rfl
    have e1 := processLinesGo_skip true true MacroTable.new
      ⟨[("MAX", ⟨"MAX", "100"⟩)], []⟩ [] [] 0 "#define MAX 100" "#define MAX 100"
      ["#foo MAX"] (by rfl) (by rfl)
    have e2 := processLinesGo_processLine true true ⟨[("MAX", ⟨"MAX", "100"⟩)], []⟩
      ⟨[("MAX", ⟨"MAX", "100"⟩)], []⟩ [] [] 1 "#foo MAX" "#foo MAX" "#foo MAX" []
      (by rfl) (by rfl)
    have hpl : Preprocessor.processLinesGo true true MacroTable.new [] 0
        ["#define MAX 100", "#foo MAX"] =
        .ok ("#foo MAX\n", ⟨[("MAX", ⟨"MAX", "100"⟩)], []⟩, []) := by
      rw [e1, e2, processLinesGo_nil]; rfl
    simp [Preprocessor.process, Preprocessor.processWith, hA, hL, hpl]
  · rfl

/-! ### Claim C6 -/

/-- Claim C6: preprocessing "#define A B\n#define B A\nint x = A;" fails
with the macro-recursion error.  Expanding the line "int x = A;" enters A,
then its value B, then meets A again while A is still on the expansion
stack — the guard fires on the nested expansion, catching the indirect
cycle A→B→A. -/
theorem C6_mutual_recursion_detected :
    Preprocessor.process MacroTable.new "#define A B\n#define B A\nint x = A;" =
      .error (.MacroRecursion "A") := by
  have hA : Preprocessor.removeCommentsFromWholeSource true
      "#define A B\n#define B A\nint x = A;" Position.start =
      .ok "#define A B\n#define B A\nint x = A;" := by rfl
  have hL : rustLines "#define A B\n#define B A\nint x = A;" =
      ["#define A B", "#define B A", "int x = A;"] := by rfl
  have e1 := processLinesGo_skip true true MacroTable.new
    ⟨[("A", ⟨"A", "B"⟩)], []⟩ [] [] 0 "#define A B" "#define A B"
    ["#define B A", "int x = A;"] (by rfl) (by rfl)
  have e2 := processLinesGo_skip true true ⟨[("A", ⟨"A", "B"⟩)], []⟩
    ⟨[("B", ⟨"B", "A"⟩), ("A", ⟨"A", "B"⟩)], []⟩ [] [] 1 "#define B A" "#define B A"
    ["int x = A;"] (by rfl) (by rfl)
  have e3 := processLinesGo_expand_error true true
    ⟨[("B", ⟨"B", "A"⟩), ("A", ⟨"A", "B"⟩)], []⟩
    (MacroTable.expand ⟨[("B", ⟨"B", "A"⟩), ("A", ⟨"A", "B"⟩)], []⟩ "int x = A;").2
    [] 2 "int x = A;" [] (.MacroRecursion "A") (by rfl) (by rfl) (by rfl)
  have hpl : Preprocessor.processLinesGo true true MacroTable.new [] 0
      ["#define A B", "#define B A", "int x = A;"] =
      .error (.MacroRecursion "A") := by
    rw [e1, e2, e3]
  simp [Preprocessor.process, Preprocessor.processWith, hA, hL, hpl]

/-! ### Claim C10 -/

/-- Claim C10: #define and #undef directives are executed before
(and so regardless of) any activation check: process_directive on a
"#define name value..." line performs exactly the MacroTable::define
update, and on a "#undef name ..." line exactly the MacroTable::undefine
update, in both cases with the condition stack passed through untouched and
never consulted; consequently, processing
"#ifdef UNDEFINED\n#define X 1\n#endif\nX\n" installs X inside the inactive
block and the final line X expands to 1, and processing
"#define Y 2\n#ifdef UNDEFINED\n#undef Y\n#endif\nY\n" removes Y inside the
inactive block so the final line Y stays unexpanded. -/
theorem C10_define_undef_ignore_activation (sc : Bool) (mt : MacroTable) (d : String)
    (st : List ConditionState) (pos : Position) (name : String)
    (valueParts : List String)
    (sc2 : Bool) (mt2 : MacroTable) (d2 : String) (st2 : List ConditionState)
    (pos2 : Position) (name2 : String) (args2 : List String)
    (hsplit : rustSplitWhitespace d = "#define" :: name :: valueParts)
    (hsplit2 : rustSplitWhitespace d2 = "#undef" :: name2 :: args2) :
    (Preprocessor.processDirective sc mt d st pos =
      match mt.define name (String.intercalate " " valueParts) with
      | .ok mt1 => .ok (mt1, st, .SkipLine)
      | .error e => .error e) ∧
    Preprocessor.processDirective sc2 mt2 d2 st2 pos2 =
      .ok (mt2.undefine name2, st2, .SkipLine) ∧
    Preprocessor.process MacroTable.new "#ifdef UNDEFINED\n#define X 1\n#endif\nX\n" =
      .ok "1\n" ∧
    Preprocessor.process MacroTable.new
      "#define Y 2\n#ifdef UNDEFINED\n#undef Y\n#endif\nY\n" = .ok "Y\n" := by
  refine ⟨?_, ?_, ?_, ?_⟩
  · simp [Preprocessor.processDirective, hsplit]
  · simp [Preprocessor.processDirective, hsplit2]
  · have hA : Preprocessor.removeCommentsFromWholeSource true
        "#ifdef UNDEFINED\n#define X 1\n#endif\nX\n" Position.start =
        .ok "#ifdef UNDEFINED\n#define X 1\n#endif\nX\n" := by rfl
    have hL : rustLines "#ifdef UNDEFINED\n#define X 1\n#endif\nX\n" =
        ["#ifdef UNDEFINED", "#define X 1", "#endif", "X"] := by rfl
    have e1 := processLinesGo_skip true true MacroTable.new MacroTable.new
      [] [.IfDef false] 0 "#ifdef UNDEFINED" "#ifdef UNDEFINED"
      ["#define X 1", "#endif", "X"] (by rfl) (by rfl)
    have e2 := processLinesGo_skip true true MacroTable.new
      ⟨[("X", ⟨"X", "1"⟩)], []⟩ [.IfDef false] [.IfDef false] 1 "#define X 1"
      "#define X 1" ["#endif", "X"] (by rfl) (by rfl)
    have e3 := processLinesGo_skip true true ⟨[("X", ⟨"X", "1"⟩)], []⟩
      ⟨[("X", ⟨"X", "1"⟩)], []⟩ [.IfDef false] [] 2 "#endif" "#endif"
      ["X"] (by rfl) (by rfl)
    have e4 := processLinesGo_active true true ⟨[("X", ⟨"X", "1"⟩)], []⟩
      ⟨[("X", ⟨"X", "1"⟩)], []⟩ [] 3 "X" "1" [] (by rfl) (by rfl) (by rfl)
    have hpl : Preprocessor.processLinesGo true true MacroTable.new [] 0
        ["#ifdef UNDEFINED", "#define X 1", "#endif", "X"] =
        .ok ("1\n", ⟨[("X", ⟨"X", "1"⟩)], []⟩, []) := by
      rw [e1, e2, e3, e4, processLinesGo_nil]; rfl
    simp [Preprocessor.process, Preprocessor.processWith, hA, hL, hpl]
  · have hA : Preprocessor.removeCommentsFromWholeSource true
        "#define Y 2\n#ifdef UNDEFINED\n#undef Y\n#endif\nY\n" Position.start =
        .ok "#define Y 2\n#ifdef UNDEFINED\n#undef Y\n#endif\nY\n" := by rfl
    have hL : rustLines "#define Y 2\n#ifdef UNDEFINED\n#undef Y\n#endif\nY\n" =
        ["#define Y 2", "#ifdef UNDEFINED", "#undef Y", "#endif", "Y"] := by rfl
    have e1 := processLinesGo_skip true true MacroTable.new
      ⟨[("Y", ⟨"Y", "2"⟩)], []⟩ [] [] 0 "#define Y 2" "#define Y 2"
      ["#ifdef UNDEFINED", "#undef Y", "#endif", "Y"] (by rfl) (by rfl)
    have e2 := processLinesGo_skip true true ⟨[("Y", ⟨"Y", "2"⟩)], []⟩
      ⟨[("Y", ⟨"Y", "2"⟩)], []⟩ [] [.IfDef false] 1 "#ifdef UNDEFINED"
      "#ifdef UNDEFINED" ["#undef Y", "#endif", "Y"] (by rfl) (by rfl)
    have e3 := processLinesGo_skip true true ⟨[("Y", ⟨"Y", "2"⟩)], []⟩
      ⟨[], []⟩ [.IfDef false] [.IfDef false] 2 "#undef Y" "#undef Y"
      ["#endif", "Y"] (by rfl) (by rfl)
    have e4 := processLinesGo_skip true true ⟨[], []⟩ ⟨[], []⟩
      [.IfDef false] [] 3 "#endif" "#endif" ["Y"] (by rfl) (by rfl)
    have e5 := processLinesGo_active true true ⟨[], []⟩ ⟨[], []⟩
      [] 4 "Y" "Y" [] (by rfl) (by rfl) (by rfl)
    have hpl : Preprocessor.processLinesGo true true MacroTable.new [] 0
        ["#define Y 2", "#ifdef UNDEFINED", "#undef Y", "#endif", "Y"] =
        .ok ("Y\n", ⟨[], []⟩, []) := by
      rw [e1, e2, e3, e4, e5, processLinesGo_nil]; rfl
    simp [Preprocessor.process, Preprocessor.processWith, hA, hL, hpl]

/-- Concrete instance of C10_define_undef_ignore_activation at the
directives "#define X 1" and "#undef Y", each under an inactive conditional
block. -/
theorem C10_witness :
    (Preprocessor.processDirective true MacroTable.new "#define X 1"
        [ConditionState.IfDef false] ⟨2, 1⟩ =
      match MacroTable.new.define "X" (String.intercalate " " ["1"]) with
      | .ok mt1 => .ok (mt1, [ConditionState.IfDef false], .SkipLine)
      | .error e => .error e) ∧
    Preprocessor.processDirective true ⟨[("Y", ⟨"Y", "2"⟩)], []⟩ "#undef Y"
        [ConditionState.IfDef false] ⟨3, 1⟩ =
      .ok ((⟨[("Y", ⟨"Y", "2"⟩)], []⟩ : MacroTable).undefine "Y",
        [ConditionState.IfDef false], .SkipLine) ∧
    Preprocessor.process MacroTable.new "#ifdef UNDEFINED\n#define X 1\n#endif\nX\n" =
      .ok "1\n" ∧
    Preprocessor.process MacroTable.new
      "#define Y 2\n#ifdef UNDEFINED\n#undef Y\n#endif\nY\n" = .ok "Y\n" :=
  C10_define_undef_ignore_activation true MacroTable.new "#define X 1" [ConditionState.IfDef false] ⟨2, 1⟩
    "X" ["1"] true ⟨[("Y", ⟨"Y", "2"⟩)], []⟩ "#undef Y" [ConditionState.IfDef false]
    ⟨3, 1⟩ "Y" [] (by rfl) (by rfl)

/-! ### Claim C3 -/

/-- Claim C3 fails on the code: scanning the 5-character input "a b"
(quote, a, space, b, quote) yields StringLiteral "ab", not the claimed
StringLiteral "a b" — Scanner::advance appends consumed characters to
current_lexeme only when they are not whitespace, so the interior space of
a string literal is dropped from the lexeme the content is sliced from. -/
theorem C3_string_interior_space_dropped :
    ((Scanner.new "\"a b\"").nextToken).1 =
      .ok ⟨.StringLiteral "ab", "\"ab\"", ⟨1, 1⟩⟩ := by rfl

/-! ### Claim C5 -/

/-- Claim C5: integer boundary behavior.  "2147483647" and "-2147483648"
scan to IntLiteral tokens with exactly those values and no errors, while
"2147483648" and "-2147483649" each produce exactly one InvalidNumber
error (and no literal token). -/
theorem C5_int_literal_boundaries :
    (Scanner.new "2147483647").scanAll =
        ([⟨.IntLiteral 2147483647, "2147483647", ⟨1, 1⟩⟩,
          ⟨.EndOfFile, "", ⟨1, 11⟩⟩], []) ∧
      (Scanner.new "-2147483648").scanAll =
        ([⟨.IntLiteral (-2147483648), "-2147483648", ⟨1, 1⟩⟩,
          ⟨.EndOfFile, "", ⟨1, 12⟩⟩], []) ∧
      (Scanner.new "2147483648").scanAll =
        ([⟨.EndOfFile, "", ⟨1, 11⟩⟩],
          [.InvalidNumber ⟨1, 1⟩ "2147483648"]) ∧
      (Scanner.new "-2147483649").scanAll =
        ([⟨.EndOfFile, "", ⟨1, 12⟩⟩],
          [.InvalidNumber ⟨1, 1⟩ "-2147483649"]) :=
  ⟨by rfl, by rfl, by rfl, by rfl⟩

/-! ### Claim C8 -/

/-- Claim C8: peek_token restores every scanner field, so it leaves the
scanner exactly as it was: the state after peek_token is the original
state, the peeked result is what next_token would return, next_token after
a peek returns exactly what next_token directly would (token or error, and
same resulting state), and repeated peek_token calls return the same
result. -/
theorem C8_peek_token_no_side_effects (s : Scanner) :
    (s.peekToken).2 = s ∧ (s.peekToken).1 = (s.nextToken).1 ∧
      (s.peekToken).2.nextToken = s.nextToken ∧
      (s.peekToken).2.peekToken = s.peekToken := by
  have h : (s.peekToken).2 = s := by
    obtain ⟨cs, cp, sp, lx, er⟩ := s
    rfl
  exact ⟨h, rfl, by rw [h], by rw [h]⟩

/-! ### Claim C9 -/

/-- Claim C9: with all input consumed, next_token returns Ok with an
EndOfFile token at the current position, consumes nothing, keeps the
current position, and a repeated next_token call returns the same EndOfFile
token again. -/
theorem C9_next_token_idempotent_at_eof (s : Scanner) (h : s.chars = []) :
    (s.nextToken).1 = .ok (Token.eof s.currentPosition) ∧
      (s.nextToken).2.chars = [] ∧
      (s.nextToken).2.currentPosition = s.currentPosition ∧
      ((s.nextToken).2.nextToken).1 = .ok (Token.eof s.currentPosition) := by
  obtain ⟨cs, cp, sp, lx, er⟩ := s
  dsimp only at h
  subst h
  exact ⟨rfl, rfl, rfl, rfl⟩

/-- Concrete instance of C9_next_token_idempotent_at_eof on the empty
input. -/
theorem C9_witness :
    ((Scanner.new "").nextToken).1 =
        .ok (Token.eof (Scanner.new "").currentPosition) ∧
      ((Scanner.new "").nextToken).2.chars = [] ∧
      ((Scanner.new "").nextToken).2.currentPosition =
        (Scanner.new "").currentPosition ∧
      (((Scanner.new "").nextToken).2.nextToken).1 =
        .ok (Token.eof (Scanner.new "").currentPosition) :=
  C9_next_token_idempotent_at_eof (Scanner.new "") (by rfl)

/-! ### Claim C7 -/

theorem stripTrailingCr_eq (l : List Char) (h : '\r' ∉ l) : stripTrailingCr l = l := by
  rw [stripTrailingCr]
  split
  · rename_i hl
    exact absurd (List.mem_of_mem_getLast? hl) h
  · rfl

theorem rustLinesGo_cons_ne (c : Char) (rest seg : List Char) (h : c ≠ '\n') :
    rustLinesGo (c :: rest) seg = rustLinesGo rest (seg ++ [c]) := by
  rw [rustLinesGo.eq_def]
  split
  · rename_i heq
    simp at heq
  · rename_i heq
    injection heq with h1 h2
    exact absurd h1 h
  · rename_i c' rest' heq
    injection heq with h1 h2
    subst h1; subst h2; rfl

theorem rustLinesGo_line (l : List Char) (hnl : '\n' ∉ l) :
    ∀ (rest seg : List Char),
      rustLinesGo (l ++ '\n' :: rest) seg =
        match rest with
        | [] => [stripTrailingCr (seg ++ l)]
        | _ :: _ => stripTrailingCr (seg ++ l) :: rustLinesGo rest [] := by
  induction l with
  | nil =>
    intro rest seg
    match rest with
    | [] => simp [rustLinesGo]
    | r :: rest' => simp [rustLinesGo]
  | cons c l ih =>
    intro rest seg
    have hc : c ≠ '\n' := fun hh => hnl (hh ▸ List.mem_cons_self c l)
    have hnl' : '\n' ∉ l := fun hh => hnl (List.mem_cons_of_mem c hh)
    rw [List.cons_append, rustLinesGo_cons_ne c _ seg hc, ih hnl' rest (seg ++ [c])]
    match rest with
    | [] => simp
    | r :: rest' => simp

theorem rustLinesGo_no_nl (l : List Char) (hnl : '\n' ∉ l) :
    ∀ seg : List Char, rustLinesGo l seg = [seg ++ l] := by
  induction l with
  | nil => intro seg; simp [rustLinesGo]
  | cons c l ih =>
    intro seg
    have hc : c ≠ '\n' := fun hh => hnl (hh ▸ List.mem_cons_self c l)
    have hnl' : '\n' ∉ l := fun hh => hnl (List.mem_cons_of_mem c hh)
    rw [rustLinesGo_cons_ne c _ seg hc, ih hnl' (seg ++ [c])]
    simp

/-- The character-level join of lines, each terminated by a newline. -/
def charsJoin : List (List Char) → List Char
  | [] => []
  | l :: rest => l ++ '\n' :: charsJoin rest

theorem rustLinesGo_charsJoin (ls : List (List Char))
    (h : ∀ l ∈ ls, '\n' ∉ l ∧ '\r' ∉ l) :
    ∀ (suffix : List Char), suffix ≠ [] →
      rustLinesGo (charsJoin ls ++ suffix) [] = ls ++ rustLinesGo suffix [] := by
  induction ls with
  | nil => intro suffix _; simp [charsJoin]
  | cons l tail ih =>
    intro suffix hsuf
    have hl := h l (List.mem_cons_self l tail)
    have htail : ∀ x ∈ tail, '\n' ∉ x ∧ '\r' ∉ x :=
      fun x hx => h x (List.mem_cons_of_mem l hx)
    rw [charsJoin, List.append_assoc, List.cons_append,
      rustLinesGo_line l hl.1 (charsJoin tail ++ suffix) [], ih htail suffix hsuf]
    cases hrest : charsJoin tail ++ suffix with
    | nil => exact absurd (List.append_eq_nil.mp hrest).2 hsuf
    | cons r rest' => simp [stripTrailingCr_eq l hl.2]

/-- Newline-terminated join of lines, the active branch's contribution to
the preprocessor output. -/
def joinNl : List String → String
  | [] => ""
  | l :: rest => l ++ "\n" ++ joinNl rest

/-- One bare newline per line, an inactive branch's contribution when line
numbers are preserved. -/
def blanks : List String → String
  | [] => ""
  | _ :: rest => "\n" ++ blanks rest

/-- A source of the C7 shape: #ifdef DEBUG, the if-branch lines, #else, the
else-branch lines, #endif. -/
def mkCondSource (ifs elses : List String) : String :=
  "#ifdef DEBUG\n" ++ joinNl ifs ++ "#else\n" ++ joinNl elses ++ "#endif"

theorem joinNl_data (ls : List String) :
    (joinNl ls).data = charsJoin (ls.map String.data) := by
  induction ls with
  | nil => rfl
  | cons l rest ih =>
    show (l ++ "\n" ++ joinNl rest).data = _
    rw [String.data_append, String.data_append, ih]
    simp [charsJoin]

theorem mkCondSource_data (ifs elses : List String) :
    (mkCondSource ifs elses).data =
      charsJoin ("#ifdef DEBUG".data :: ifs.map String.data) ++
        charsJoin ("#else".data :: elses.map String.data) ++ "#endif".data := by
  rw [mkCondSource]
  rw [String.data_append, String.data_append, String.data_append, String.data_append,
    joinNl_data, joinNl_data]
  simp [charsJoin]

theorem rustLines_mkCondSource (ifs elses : List String)
    (hif : ∀ l ∈ ifs, '\n' ∉ l.data ∧ '\r' ∉ l.data)
    (hel : ∀ l ∈ elses, '\n' ∉ l.data ∧ '\r' ∉ l.data) :
    rustLines (mkCondSource ifs elses) =
      "#ifdef DEBUG" :: (ifs ++ ("#else" :: (elses ++ ["#endif"]))) := by
  have hdata := mkCondSource_data ifs elses
  have h1 : ∀ l ∈ "#ifdef DEBUG".data :: ifs.map String.data, '\n' ∉ l ∧ '\r' ∉ l := by
    intro l hl
    rcases List.mem_cons.mp hl with h | h
    · subst h; exact ⟨by decide, by decide⟩
    · obtain ⟨s, hs, rfl⟩ := List.mem_map.mp h
      exact hif s hs
  have h2 : ∀ l ∈ "#else".data :: elses.map String.data, '\n' ∉ l ∧ '\r' ∉ l := by
    intro l hl
    rcases List.mem_cons.mp hl with h | h
    · subst h; exact ⟨by decide, by decide⟩
    · obtain ⟨s, hs, rfl⟩ := List.mem_map.mp h
      exact hel s hs
  have hchars : rustLinesChars (mkCondSource ifs elses).data =
      ("#ifdef DEBUG".data :: ifs.map String.data) ++
        ("#else".data :: elses.map String.data) ++ ["#endif".data] := by
    have hne : (mkCondSource ifs elses).data ≠ [] := by
      rw [hdata]; simp [charsJoin]
    cases hcs : (mkCondSource ifs elses).data with
    | nil => exact absurd hcs hne
    | cons c rest =>
      rw [rustLinesChars, ← hcs, hdata, List.append_assoc,
        rustLinesGo_charsJoin _ h1 _ (by simp [charsJoin]),
        rustLinesGo_charsJoin _ h2 _ (by decide),
        rustLinesGo_no_nl "#endif".data (by decide) []]
      simp
  rw [rustLines, hchars]
  have hid : (fun l => (⟨l⟩ : String)) ∘ String.data = id := funext fun s => rfl
  simp [hid]

/-- Outside any comment, a slash-free text is passed through unchanged by
the comment remover, whatever the string/char/escape state. -/
theorem removeCommentsGo_no_slash (preserve : Bool) (startPosition : Position) :
    ∀ (cs : List Char) (pos : Position) (inString inChar escape : Bool)
      (commentStart : Option Position), '/' ∉ cs →
      removeCommentsGo preserve startPosition cs pos inString inChar escape false
        false false commentStart = .ok cs := by
  intro cs
  induction cs with
  | nil => intro pos inString inChar escape commentStart _; rfl
  | cons c rest ih =>
    intro pos inString inChar escape commentStart h
    have hc : c ≠ '/' := fun hh => h (hh ▸ List.mem_cons_self c rest)
    have hrest : '/' ∉ rest := fun hh => h (List.mem_cons_of_mem c hh)
    have ih' : ∀ (pos : Position) (a b c : Bool) (d : Option Position),
        removeCommentsGo preserve startPosition rest pos a b c false false false d =
          .ok rest :=
      fun pos a b c d => ih pos a b c d hrest
    rw [removeCommentsGo]
    simp only [Bool.false_eq_true, if_false]
    split_ifs with h1 h2 h3 h4 h5 h6 <;> simp only [ih', Except.map] <;> simp_all

/-- A slash-free source passes through comment removal unchanged. -/
theorem removeComments_id (preserve : Bool) (source : String) (pos : Position)
    (h : '/' ∉ source.data) :
    Preprocessor.removeCommentsFromWholeSource preserve source pos = .ok source := by
  rw [Preprocessor.removeCommentsFromWholeSource,
    removeCommentsGo_no_slash preserve pos source.data pos false false false none h]
  rfl

/-- With no macros defined, expand_internal echoes its input (given enough
fuel): the pending identifier is flushed and every character kept. -/
theorem expandGo_no_macros :
    ∀ (fuel : Nat) (cs : List Char), cs.length < fuel →
      ∀ (stack : List String) (word : List Char) (inId : Bool),
        expandGo [] fuel stack cs word inId =
          (.ok ((if inId then word else []) ++ cs), stack) := by
  intro fuel
  induction fuel with
  | zero => intro cs h; omega
  | succ fuel ih =>
    intro cs h stack word inId
    match cs with
    | [] =>
      rw [expandGo]
      cases inId with
      | false => simp
      | true =>
        by_cases hw : word.isEmpty
        · simp [hw, List.isEmpty_iff.mp hw]
        · simp [hw, List.lookup]
    | c :: rest =>
      have hlen : rest.length < fuel := by simp at h; omega
      rw [expandGo]
      by_cases hal : (rustIsAlphanumeric c || c = '_') = true
      · rw [if_pos hal, ih rest hlen stack _ true]
        cases inId <;> simp
      · rw [if_neg hal]
        cases inId with
        | false =>
          simp only [Bool.false_eq_true, if_false, ih rest hlen stack [] false]
          simp
        | true =>
          simp only [if_pos rfl, List.lookup, ih rest hlen stack [] false]
          simp

/-- MacroTable::expand with an empty macro table echoes its input and keeps
the table (the budget always covers the input length). -/
theorem expand_empty (st : List String) (input : String) :
    (MacroTable.mk [] st).expand input = (.ok input, ⟨[], st⟩) := by
  have hbudget : input.data.length < expandBudget [] input.data := by
    simp [expandBudget]
    omega
  rw [MacroTable.expand]
  simp only [expandGo_no_macros (expandBudget [] input.data) input.data hbudget st [] false]
  simp

theorem prependOut_empty
    (r : Except PreprocessorError (String × MacroTable × List ConditionState)) :
    prependOut "" r = r := by
  match r with
  | .error e => rfl
  | .ok (out, mt, stack) =>
    rw [prependOut]
    rw [String.empty_append]

theorem prependOut_comp (a b : String)
    (r : Except PreprocessorError (String × MacroTable × List ConditionState)) :
    prependOut a (prependOut b r) = prependOut (a ++ b) r := by
  match r with
  | .error e => rfl
  | .ok (out, mt, stack) =>
    simp only [prependOut]
    rw [String.append_assoc]

/-- A run of active non-directive lines each of which macro-expands to
itself is emitted as the newline-terminated join of the lines, with table
and stack unchanged. -/
theorem processLinesGo_active_block (p sc : Bool) (mt : MacroTable)
    (st : List ConditionState) (ha : Preprocessor.isSectionActive st = true) :
    ∀ (ls : List String) (n : Nat) (rest : List String),
      (∀ l ∈ ls, Preprocessor.parseDirective l = none) →
      (∀ l ∈ ls, mt.expand l = (.ok l, mt)) →
      Preprocessor.processLinesGo p sc mt st n (ls ++ rest) =
        prependOut (joinNl ls)
          (Preprocessor.processLinesGo p sc mt st (n + ls.length) rest) := by
  intro ls
  induction ls with
  | nil =>
    intro n rest _ _
    show Preprocessor.processLinesGo p sc mt st n rest = _
    rw [show joinNl [] = "" from rfl, prependOut_empty]
    simp
  | cons l tail ih =>
    intro n rest hd hex
    rw [List.cons_append,
      processLinesGo_active p sc mt mt st n l l (tail ++ rest)
        (hd l (List.mem_cons_self l tail)) ha (hex l (List.mem_cons_self l tail)),
      ih (n + 1) rest (fun x hx => hd x (List.mem_cons_of_mem l hx))
        (fun x hx => hex x (List.mem_cons_of_mem l hx)),
      prependOut_comp]
    have h2 : n + 1 + tail.length = n + (l :: tail).length := by
      simp
      omega
    rw [h2]
    rfl

/-- A run of inactive non-directive lines is emitted as one bare newline
per line (line numbers preserved), with table and stack unchanged. -/
theorem processLinesGo_inactive_block (sc : Bool) (mt : MacroTable)
    (st : List ConditionState) (ha : Preprocessor.isSectionActive st = false) :
    ∀ (ls : List String) (n : Nat) (rest : List String),
      (∀ l ∈ ls, Preprocessor.parseDirective l = none) →
      Preprocessor.processLinesGo true sc mt st n (ls ++ rest) =
        prependOut (blanks ls)
          (Preprocessor.processLinesGo true sc mt st (n + ls.length) rest) := by
  intro ls
  induction ls with
  | nil =>
    intro n rest _
    show Preprocessor.processLinesGo true sc mt st n rest = _
    rw [show blanks [] = "" from rfl, prependOut_empty]
    simp
  | cons l tail ih =>
    intro n rest hd
    rw [List.cons_append,
      processLinesGo_inactive true sc mt st n l (tail ++ rest)
        (hd l (List.mem_cons_self l tail)) ha,
      ih (n + 1) rest (fun x hx => hd x (List.mem_cons_of_mem l hx)),
      prependOut_comp]
    have h2 : n + 1 + tail.length = n + (l :: tail).length := by
      simp
      omega
    rw [h2]
    rfl




theorem charsJoin_not_mem (c : Char) (ls : List (List Char)) (hc : c ≠ '\n')
    (h : ∀ l ∈ ls, c ∉ l) : c ∉ charsJoin ls := by
  induction ls with
  | nil => simp [charsJoin]
  | cons l tail ih =>
    simp only [charsJoin, List.mem_append, List.mem_cons]
    push_neg
    exact ⟨h l (List.mem_cons_self l tail),
      hc, ih fun x hx => h x (List.mem_cons_of_mem l hx)⟩

theorem mkCondSource_no_slash (ifs elses : List String)
    (hif : ∀ l ∈ ifs, '/' ∉ l.data) (hel : ∀ l ∈ elses, '/' ∉ l.data) :
    '/' ∉ (mkCondSource ifs elses).data := by
  rw [mkCondSource_data]
  simp only [List.mem_append]
  push_neg
  refine ⟨⟨charsJoin_not_mem _ _ (by decide) ?_, charsJoin_not_mem _ _ (by decide) ?_⟩,
    by decide⟩
  · intro l hl
    rcases List.mem_cons.mp hl with h | h
    · subst h; decide
    · obtain ⟨s, hs, rfl⟩ := List.mem_map.mp h
      exact hif s hs
  · intro l hl
    rcases List.mem_cons.mp hl with h | h
    · subst h; decide
    · obtain ⟨s, hs, rfl⟩ := List.mem_map.mp h
      exact hel s hs

/-- Claim C7: conditional compilation is mutually exclusive.  For a source
#ifdef DEBUG / if-branch lines / #else / else-branch lines / #endif (branch
lines that are not directives, contain no '/', newline or carriage return,
and — when DEBUG is defined — expand to themselves), processing with DEBUG
defined emits exactly the if-branch lines (newline-joined) followed by one
bare newline per suppressed else-branch line, and processing with DEBUG
undefined emits one bare newline per suppressed if-branch line followed by
exactly the else-branch lines: each branch's content appears exactly when
its side is selected, and none of the other branch's content appears. -/
theorem C7_conditional_mutual_exclusivity (ifs elses : List String)
    (hif : ∀ l ∈ ifs, Preprocessor.parseDirective l = none ∧
      '/' ∉ l.data ∧ '\n' ∉ l.data ∧ '\r' ∉ l.data)
    (hel : ∀ l ∈ elses, Preprocessor.parseDirective l = none ∧
      '/' ∉ l.data ∧ '\n' ∉ l.data ∧ '\r' ∉ l.data)
    (hexp : ∀ l ∈ ifs, MacroTable.expand ⟨[("DEBUG", ⟨"DEBUG", "1"⟩)], []⟩ l =
      (.ok l, ⟨[("DEBUG", ⟨"DEBUG", "1"⟩)], []⟩)) :
    Preprocessor.process ⟨[("DEBUG", ⟨"DEBUG", "1"⟩)], []⟩ (mkCondSource ifs elses) =
        .ok (joinNl ifs ++ blanks elses) ∧
      Preprocessor.process MacroTable.new (mkCondSource ifs elses) =
        .ok (blanks ifs ++ joinNl elses) := by
  have hsrc : '/' ∉ (mkCondSource ifs elses).data :=
    mkCondSource_no_slash ifs elses (fun l hl => (hif l hl).2.1)
      (fun l hl => (hel l hl).2.1)
  have hA := removeComments_id true (mkCondSource ifs elses) Position.start hsrc
  have hL := rustLines_mkCondSource ifs elses
    (fun l hl => ⟨(hif l hl).2.2.1, (hif l hl).2.2.2⟩)
    (fun l hl => ⟨(hel l hl).2.2.1, (hel l hl).2.2.2⟩)
  constructor
  · have e1 := processLinesGo_skip true true ⟨[("DEBUG", ⟨"DEBUG", "1"⟩)], []⟩
      ⟨[("DEBUG", ⟨"DEBUG", "1"⟩)], []⟩ [] [.IfDef true] 0 "#ifdef DEBUG"
      "#ifdef DEBUG" (ifs ++ ("#else" :: (elses ++ ["#endif"]))) (by rfl) (by rfl)
    have e2 := processLinesGo_active_block true true ⟨[("DEBUG", ⟨"DEBUG", "1"⟩)], []⟩
      [.IfDef true] (by rfl) ifs (0 + 1) ("#else" :: (elses ++ ["#endif"]))
      (fun l hl => (hif l hl).1) hexp
    have e3 := processLinesGo_skip true true ⟨[("DEBUG", ⟨"DEBUG", "1"⟩)], []⟩
      ⟨[("DEBUG", ⟨"DEBUG", "1"⟩)], []⟩ [.IfDef true] [.IfDef false]
      (0 + 1 + ifs.length) "#else" "#else" (elses ++ ["#endif"]) (by rfl) (by rfl)
    have e4 := processLinesGo_inactive_block true ⟨[("DEBUG", ⟨"DEBUG", "1"⟩)], []⟩
      [.IfDef false] (by rfl) elses (0 + 1 + ifs.length + 1) ["#endif"]
      (fun l hl => (hel l hl).1)
    have e5 := processLinesGo_skip true true ⟨[("DEBUG", ⟨"DEBUG", "1"⟩)], []⟩
      ⟨[("DEBUG", ⟨"DEBUG", "1"⟩)], []⟩ [.IfDef false] []
      (0 + 1 + ifs.length + 1 + elses.length) "#endif" "#endif" [] (by rfl) (by rfl)
    have hpl : Preprocessor.processLinesGo true true
        ⟨[("DEBUG", ⟨"DEBUG", "1"⟩)], []⟩ [] 0
        ("#ifdef DEBUG" :: (ifs ++ ("#else" :: (elses ++ ["#endif"])))) =
        .ok (joinNl ifs ++ blanks elses, ⟨[("DEBUG", ⟨"DEBUG", "1"⟩)], []⟩, []) := by
      rw [e1, e2, e3, e4, e5, processLinesGo_nil]
      simp [prependOut, String.append_empty]
    simp [Preprocessor.process, Preprocessor.processWith, hA, hL, hpl]
  · have e1 := processLinesGo_skip true true MacroTable.new MacroTable.new
      [] [.IfDef false] 0 "#ifdef DEBUG" "#ifdef DEBUG"
      (ifs ++ ("#else" :: (elses ++ ["#endif"]))) (by rfl) (by rfl)
    have e2 := processLinesGo_inactive_block true MacroTable.new
      [.IfDef false] (by rfl) ifs (0 + 1) ("#else" :: (elses ++ ["#endif"]))
      (fun l hl => (hif l hl).1)
    have e3 := processLinesGo_skip true true MacroTable.new MacroTable.new
      [.IfDef false] [.IfDef true] (0 + 1 + ifs.length) "#else" "#else"
      (elses ++ ["#endif"]) (by rfl) (by rfl)
    have e4 := processLinesGo_active_block true true MacroTable.new
      [.IfDef true] (by rfl) elses (0 + 1 + ifs.length + 1) ["#endif"]
      (fun l hl => (hel l hl).1) (fun l _ => expand_empty [] l)
    have e5 := processLinesGo_skip true true MacroTable.new MacroTable.new
      [.IfDef true] [] (0 + 1 + ifs.length + 1 + elses.length) "#endif" "#endif"
      [] (by rfl) (by rfl)
    have hpl : Preprocessor.processLinesGo true true MacroTable.new [] 0
        ("#ifdef DEBUG" :: (ifs ++ ("#else" :: (elses ++ ["#endif"])))) =
        .ok (blanks ifs ++ joinNl elses, MacroTable.new, []) := by
      rw [e1, e2, e3, e4, e5, processLinesGo_nil]
      simp [prependOut, String.append_empty]
    simp [Preprocessor.process, Preprocessor.processWith, hA, hL, hpl]

theorem C7_witness :
    Preprocessor.process ⟨[("DEBUG", ⟨"DEBUG", "1"⟩)], []⟩
          (mkCondSource ["int a;"] ["int b;"]) =
        .ok (joinNl ["int a;"] ++ blanks ["int b;"]) ∧
      Preprocessor.process MacroTable.new (mkCondSource ["int a;"] ["int b;"]) =
        .ok (blanks ["int a;"] ++ joinNl ["int b;"]) :=
  C7_conditional_mutual_exclusivity ["int a;"] ["int b;"]
    (by
      intro l hl
      simp at hl
      subst hl
      exact ⟨by rfl, by decide, by decide, by decide⟩)
    (by
      intro l hl
      simp at hl
      subst hl
      exact ⟨by rfl, by decide, by decide, by decide⟩)
    (by
      intro l hl
      simp at hl
      subst hl
      rfl)

/-! ### Claim C4 -/

theorem Scanner.matchesChar_false_eq (s : Scanner) (e : Char)
    (h : (s.matchesChar e).1 = false) : (s.matchesChar e).2 = s := by
  obtain ⟨cs, cp, sp, lx, er⟩ := s
  cases cs with
  | nil => rfl
  | cons c rest =>
    by_cases hce : c = e
    · subst hce
      simp [Scanner.matchesChar] at h
    · simp [Scanner.matchesChar, hce]

theorem skipWsChars_length_le (cs : List Char) :
    ∀ (pos : Position) (b : Bool), (skipWsChars cs pos b).1.length ≤ cs.length := by
  induction cs with
  | nil => intro pos b; simp [skipWsChars]
  | cons c rest ih =>
    intro pos b
    cases b with
    | true => exact le_trans (ih pos false) (by simp)
    | false =>
      rw [skipWsChars]
      split
      · split
        · exact le_trans (ih _ _) (by simp)
        · split
          · split
            · exact le_trans (ih _ _) (by simp)
            · exact le_trans (ih _ _) (by simp)
          · exact le_trans (ih _ _) (by simp)
      · exact le_refl _

theorem Scanner.skipWhitespace_length_le (s : Scanner) :
    (s.skipWhitespace).chars.length ≤ s.chars.length :=
  skipWsChars_length_le s.chars s.currentPosition false

theorem skipLineCommentChars_length_le (cs : List Char) :
    ∀ (pos : Position) (lex : List Char),
      (skipLineCommentChars cs pos lex).1.length ≤ cs.length := by
  induction cs with
  | nil => intro pos lex; simp [skipLineCommentChars]
  | cons c rest ih =>
    intro pos lex
    rw [skipLineCommentChars]
    split
    · exact le_refl _
    · exact le_trans (ih _ _) (by simp)

theorem scanStringChars_length_le (startPos : Position) :
    ∀ (n : Nat) (cs : List Char), cs.length ≤ n → ∀ (pos : Position) (lex : List Char),
      (scanStringChars startPos cs pos lex).2.1.length ≤ cs.length := by
  intro n
  induction n with
  | zero =>
    intro cs h pos lex
    have hc : cs = [] := List.length_eq_zero.mp (Nat.le_zero.mp h)
    subst hc
    simp [scanStringChars]
  | succ n ih =>
    intro cs h pos lex
    match cs with
    | [] => simp [scanStringChars]
    | c :: rest =>
      simp only [List.length_cons] at h
      rw [scanStringChars.eq_def]
      dsimp only
      split
      · simp
      · split
        · match rest with
          | [] => simp [scanStringChars]
          | d :: rest2 =>
            simp only [List.length_cons] at h
            calc (scanStringChars startPos rest2 _ _).2.1.length
                ≤ rest2.length := ih rest2 (by omega) _ _
              _ ≤ (c :: d :: rest2).length := by simp; omega
        · split
          · simp
          · exact le_trans (ih rest (by omega) _ _) (by simp)

theorem scanNumberChars_length_le (cs : List Char) :
    ∀ (pos : Position) (lex : List Char) (f hdot : Bool),
      (scanNumberChars cs pos lex f hdot).1.length ≤ cs.length := by
  induction cs with
  | nil => intro pos lex f hdot; simp [scanNumberChars]
  | cons c rest ih =>
    intro pos lex f hdot
    rw [scanNumberChars]
    split
    · exact le_trans (ih _ _ _ _) (by simp)
    · split
      · exact le_trans (ih _ _ _ _) (by simp)
      · exact le_refl _

theorem scanIdentChars_length_le (cs : List Char) :
    ∀ (pos : Position) (lex : List Char),
      (scanIdentChars cs pos lex).1.length ≤ cs.length := by
  induction cs with
  | nil => intro pos lex; simp [scanIdentChars]
  | cons c rest ih =>
    intro pos lex
    rw [scanIdentChars]
    split
    · exact le_trans (ih _ _) (by simp)
    · exact le_refl _

theorem Scanner.scanString_length_le (s : Scanner) :
    ((s.scanString).2).chars.length ≤ s.chars.length := by
  rw [Scanner.scanString]
  split <;>
    exact scanStringChars_length_le s.startPosition s.chars.length s.chars
      (le_refl _) s.currentPosition s.currentLexeme

theorem Scanner.scanNumber_length_le (s : Scanner) :
    ((s.scanNumber).2).chars.length ≤ s.chars.length := by
  rw [Scanner.scanNumber]
  split
  · exact scanNumberChars_length_le s.chars s.currentPosition s.currentLexeme false false
  · split
    · exact scanNumberChars_length_le s.chars s.currentPosition s.currentLexeme false false
    · split
      · exact scanNumberChars_length_le s.chars s.currentPosition s.currentLexeme false false
      · split
        · exact scanNumberChars_length_le s.chars s.currentPosition s.currentLexeme false false
        · exact scanNumberChars_length_le s.chars s.currentPosition s.currentLexeme false false

theorem snd_ite {A B : Type} (c : Prop) [Decidable c] (a b : A) (s : B) :
    (if c then (a, s) else (b, s)).2 = s := by
  split <;> rfl

theorem Scanner.scanIdentifierOrKeyword_length_le (s : Scanner) :
    ((s.scanIdentifierOrKeyword).2).chars.length ≤ s.chars.length := by
  rw [Scanner.scanIdentifierOrKeyword]
  dsimp only
  rw [snd_ite]
  exact scanIdentChars_length_le s.chars s.currentPosition s.currentLexeme

/-- Scanner::skip_comments always returns Ok and never grows the input:
the double-consuming matches('/') && matches('*') guard can never fire
(after the first condition, the next character is never '/'), so the only
error source — the block-comment loop — is unreachable. -/
theorem Scanner.skipComments_spec (s : Scanner) :
    (s.skipComments).1 = .ok () ∧ (s.skipComments).2.chars.length ≤ s.chars.length := by
  rw [Scanner.skipComments]
  dsimp only
  by_cases h1 : ((s.matchesChar '/').1 &&
      (((s.matchesChar '/').2).matchesChar '/').1) = true
  · rw [if_pos h1]
    refine ⟨rfl, ?_⟩
    calc (skipLineCommentChars (((s.matchesChar '/').2).matchesChar '/').2.chars
          (((s.matchesChar '/').2).matchesChar '/').2.currentPosition
          (((s.matchesChar '/').2).matchesChar '/').2.currentLexeme).1.length
        ≤ (((s.matchesChar '/').2).matchesChar '/').2.chars.length :=
          skipLineCommentChars_length_le _ _ _
      _ ≤ ((s.matchesChar '/').2).chars.length := Scanner.matchesChar_length_le _ _
      _ ≤ s.chars.length := Scanner.matchesChar_length_le _ _
  · rw [if_neg h1]
    have hm3 : ((if (s.matchesChar '/').1 then (((s.matchesChar '/').2).matchesChar '/').2
        else (s.matchesChar '/').2).matchesChar '/').1 = false := by
      cases hm1 : (s.matchesChar '/').1 with
      | false =>
        rw [if_neg (by simp [hm1]), Scanner.matchesChar_false_eq s '/' hm1]
        exact hm1
      | true =>
        have h2 : (((s.matchesChar '/').2).matchesChar '/').1 = false := by
          cases hh : (((s.matchesChar '/').2).matchesChar '/').1 with
          | false => rfl
          | true => exact absurd (by simp [hm1, hh]) h1
        rw [if_pos (by simp [hm1]), Scanner.matchesChar_false_eq _ '/' h2]
        exact h2
    rw [hm3]
    simp only [Bool.false_and, Bool.false_eq_true, if_false]
    refine ⟨trivial, ?_⟩
    rw [Scanner.matchesChar_false_eq _ '/' hm3]
    cases hm1 : (s.matchesChar '/').1 with
    | false =>
      rw [if_neg (by simp [hm1]), Scanner.matchesChar_false_eq s '/' hm1]
    | true =>
      rw [if_pos (by simp [hm1])]
      calc (((s.matchesChar '/').2).matchesChar '/').2.chars.length
          ≤ ((s.matchesChar '/').2).chars.length := Scanner.matchesChar_length_le _ _
        _ ≤ s.chars.length := Scanner.matchesChar_length_le _ _

/-- The comment loop of next_token never returns an error and never grows
the input. -/
theorem Scanner.commentLoopF_spec (fuel : Nat) :
    ∀ (s : Scanner), ∃ s', Scanner.commentLoopF fuel s = (.ok (), s') ∧
      s'.chars.length ≤ s.chars.length := by
  induction fuel with
  | zero => intro s; exact ⟨s, rfl, le_refl _⟩
  | succ fuel ih =>
    intro s
    rw [Scanner.commentLoopF]
    match hcs : s.chars with
    | [] => exact ⟨s, rfl, by rw [hcs]⟩
    | [c] => exact ⟨s, rfl, by rw [hcs]⟩
    | c :: c2 :: tail =>
      dsimp only
      by_cases hc : c = '/'
      · rw [if_pos hc]
        by_cases hc2 : (c2 = '/' || c2 = '*') = true
        · rw [if_pos hc2]
          obtain ⟨hok, hle⟩ := Scanner.skipComments_spec s
          cases hsc : s.skipComments with
          | mk r1 s1 =>
            rw [hsc] at hok hle
            dsimp only at hok hle
            subst hok
            obtain ⟨s3, hcl, hle3⟩ := ih s1.skipWhitespace
            refine ⟨s3, hcl, ?_⟩
            calc s3.chars.length
                ≤ s1.skipWhitespace.chars.length := hle3
              _ ≤ s1.chars.length := Scanner.skipWhitespace_length_le s1
              _ ≤ s.chars.length := hle
              _ = (c :: c2 :: tail).length := by rw [hcs]
        · rw [if_neg hc2]
          exact ⟨s, rfl, by rw [hcs]⟩
      · rw [if_neg hc]
        exact ⟨s, rfl, by rw [hcs]⟩

/-- Every next_token call either strictly consumes input (it returns a
non-EOF token or an error) or returns an EndOfFile token. -/
theorem Scanner.nextToken_progress (s : Scanner) :
    (s.nextToken).2.chars.length < s.chars.length ∨
      ∃ p, (s.nextToken).1 = .ok (Token.eof p) := by
  obtain ⟨s1, hcl, hle1⟩ :=
    Scanner.commentLoopF_spec (((s.startToken).skipWhitespace).chars.length + 1)
      ((s.startToken).skipWhitespace)
  rw [Scanner.nextToken]
  dsimp only
  rw [hcl]
  dsimp only
  cases hchars : s1.chars with
  | nil =>
    right
    exact ⟨s1.currentPosition, rfl⟩
  | cons c ctail =>
    left
    dsimp only [Scanner.advance]
    have hS3 : ctail.length < s.chars.length := by
      have hch : (c :: ctail).length ≤ s.chars.length := by
        rw [← hchars]
        calc s1.chars.length
            ≤ ((s.startToken).skipWhitespace).chars.length := hle1
          _ ≤ (s.startToken).chars.length := Scanner.skipWhitespace_length_le _
          _ = s.chars.length := rfl
      simp only [List.length_cons] at hch
      omega
    generalize hgen : Scanner.mk ctail (advancePos c s1.currentPosition)
      s1.currentPosition (advanceLex c []) s1.errorRecovery = sg
    have hsg : sg.chars = ctail := by rw [← hgen]
    have hS3g : sg.chars.length < s.chars.length := by rw [hsg]; exact hS3
    by_cases h0 : c = '('
    · rw [if_pos h0]
      exact hS3g
    · rw [if_neg h0]
      by_cases h1 : c = ')'
      · rw [if_pos h1]
        exact hS3g
      · rw [if_neg h1]
        by_cases h2 : c = '\x7b'
        · rw [if_pos h2]
          exact hS3g
        · rw [if_neg h2]
          by_cases h3 : c = '\x7d'
          · rw [if_pos h3]
            exact hS3g
          · rw [if_neg h3]
            by_cases h4 : c = '['
            · rw [if_pos h4]
              exact hS3g
            · rw [if_neg h4]
              by_cases h5 : c = ']'
              · rw [if_pos h5]
                exact hS3g
              · rw [if_neg h5]
                by_cases h6 : c = ';'
                · rw [if_pos h6]
                  exact hS3g
                · rw [if_neg h6]
                  by_cases h7 : c = ','
                  · rw [if_pos h7]
                    exact hS3g
                  · rw [if_neg h7]
                    by_cases h8 : c = ':'
                    · rw [if_pos h8]
                      exact hS3g
                    · rw [if_neg h8]
                      by_cases h9 : c = '+'
                      · rw [if_pos h9]
                        by_cases hm : (sg.matchesChar '=').1 = true
                        · rw [if_pos hm]
                          exact lt_of_le_of_lt (Scanner.matchesChar_length_le _ _) hS3g
                        · rw [if_neg hm]
                          exact hS3g
                      · rw [if_neg h9]
                        by_cases h10 : c = '-'
                        · rw [if_pos h10]
                          cases hh : ctail.head? with
                          | none => exact hS3g
                          | some nc =>
                            dsimp only
                            by_cases hd : nc.isDigit = true
                            · rw [if_pos hd]
                              exact lt_of_le_of_lt (Scanner.scanNumber_length_le _) hS3g
                            · rw [if_neg hd]
                              by_cases hm : (sg.matchesChar '=').1 = true
                              · rw [if_pos hm]
                                exact lt_of_le_of_lt (Scanner.matchesChar_length_le _ _) hS3g
                              · rw [if_neg hm]
                                exact hS3g
                        · rw [if_neg h10]
                          by_cases h11 : c = '*'
                          · rw [if_pos h11]
                            by_cases hm : (sg.matchesChar '=').1 = true
                            · rw [if_pos hm]
                              exact lt_of_le_of_lt (Scanner.matchesChar_length_le _ _) hS3g
                            · rw [if_neg hm]
                              exact hS3g
                          · rw [if_neg h11]
                            by_cases h12 : c = '/'
                            · rw [if_pos h12]
                              by_cases hm : (sg.matchesChar '=').1 = true
                              · rw [if_pos hm]
                                exact lt_of_le_of_lt (Scanner.matchesChar_length_le _ _) hS3g
                              · rw [if_neg hm]
                                exact hS3g
                            · rw [if_neg h12]
                              by_cases h13 : c = '%'
                              · rw [if_pos h13]
                                exact hS3g
                              · rw [if_neg h13]
                                by_cases h14 : c = '!'
                                · rw [if_pos h14]
                                  by_cases hm : (sg.matchesChar '=').1 = true
                                  · rw [if_pos hm]
                                    exact lt_of_le_of_lt (Scanner.matchesChar_length_le _ _) hS3g
                                  · rw [if_neg hm]
                                    exact hS3g
                                · rw [if_neg h14]
                                  by_cases h15 : c = '='
                                  · rw [if_pos h15]
                                    by_cases hm : (sg.matchesChar '=').1 = true
                                    · rw [if_pos hm]
                                      exact lt_of_le_of_lt (Scanner.matchesChar_length_le _ _) hS3g
                                    · rw [if_neg hm]
                                      exact hS3g
                                  · rw [if_neg h15]
                                    by_cases h16 : c = '<'
                                    · rw [if_pos h16]
                                      by_cases hm : (sg.matchesChar '=').1 = true
                                      · rw [if_pos hm]
                                        exact lt_of_le_of_lt (Scanner.matchesChar_length_le _ _) hS3g
                                      · rw [if_neg hm]
                                        exact hS3g
                                    · rw [if_neg h16]
                                      by_cases h17 : c = '>'
                                      · rw [if_pos h17]
                                        by_cases hm : (sg.matchesChar '=').1 = true
                                        · rw [if_pos hm]
                                          exact lt_of_le_of_lt (Scanner.matchesChar_length_le _ _) hS3g
                                        · rw [if_neg hm]
                                          exact hS3g
                                      · rw [if_neg h17]
                                        by_cases h18 : c = '&'
                                        · rw [if_pos h18]
                                          by_cases hm : (sg.matchesChar '&').1 = true
                                          · rw [if_pos hm]
                                            exact lt_of_le_of_lt (Scanner.matchesChar_length_le _ _) hS3g
                                          · rw [if_neg hm]
                                            exact hS3g
                                        · rw [if_neg h18]
                                          by_cases h19 : c = '|'
                                          · rw [if_pos h19]
                                            by_cases hm : (sg.matchesChar '|').1 = true
                                            · rw [if_pos hm]
                                              exact lt_of_le_of_lt (Scanner.matchesChar_length_le _ _) hS3g
                                            · rw [if_neg hm]
                                              exact hS3g
                                          · rw [if_neg h19]
                                            by_cases h20 : c = '\"'
                                            · rw [if_pos h20]
                                              exact lt_of_le_of_lt (Scanner.scanString_length_le _) hS3g
                                            · rw [if_neg h20]
                                              by_cases h21 : c.isDigit = true
                                              · rw [if_pos h21]
                                                exact lt_of_le_of_lt (Scanner.scanNumber_length_le _) hS3g
                                              · rw [if_neg h21]
                                                by_cases h22 : (c.isAlpha || c = '_') = true
                                                · rw [if_pos h22]
                                                  exact lt_of_le_of_lt (Scanner.scanIdentifierOrKeyword_length_le _) hS3g
                                                · rw [if_neg h22]
                                                  exact hS3g

theorem Token.isEof_eq (t : Token) : t.isEof = true ↔ t.kind = .EndOfFile := by
  obtain ⟨k, l, p⟩ := t
  cases k <;> simp [Token.isEof]

theorem advanceSkip_le (s2 : Scanner) :
    (match s2.advance with
      | (some _, sa) => { sa with errorRecovery := sa.errorRecovery.skipChar }
      | (none, sa) => sa).chars.length ≤ s2.chars.length := by
  have hle := Scanner.advance_length_le s2
  cases hadv : s2.advance with
  | mk oc sa =>
    rw [hadv] at hle
    cases oc <;> exact hle

/-- The scan_all loop, given fuel beyond the remaining input length,
returns a token list of the form ts ++ [eof-token] with no EndOfFile token
in ts. -/
theorem Scanner.scanAllGo_spec :
    ∀ (fuel : Nat) (s : Scanner), s.chars.length + 2 ≤ fuel →
      ∃ ts t, (Scanner.scanAllGo fuel s).1 = ts ++ [t] ∧ t.kind = .EndOfFile ∧
        ∀ t' ∈ ts, t'.kind ≠ .EndOfFile := by
  intro fuel
  induction fuel with
  | zero => intro s h; omega
  | succ fuel ih =>
    intro s h
    rw [Scanner.scanAllGo]
    cases hnt : s.nextToken with
    | mk r s1 =>
      match r with
      | .ok t =>
        dsimp only
        by_cases he : t.isEof = true
        · rw [if_pos he]
          exact ⟨[], t, rfl, (Token.isEof_eq t).mp he, by simp⟩
        · rw [if_neg he]
          rcases Scanner.nextToken_progress s with hlt | ⟨p, hp⟩
          · rw [hnt] at hlt
            dsimp only at hlt
            obtain ⟨ts, tt, h1, h2, h3⟩ := ih s1 (by omega)
            refine ⟨t :: ts, tt, by rw [List.cons_append, h1], h2, ?_⟩
            intro t' ht'
            rcases List.mem_cons.mp ht' with hh | hh
            · subst hh
              intro hk
              exact he ((Token.isEof_eq t').mpr hk)
            · exact h3 t' hh
          · rw [hnt] at hp
            dsimp only at hp
            injection hp with hp1
            exact absurd (hp1 ▸ rfl) he
      | .error e =>
        dsimp only
        rcases Scanner.nextToken_progress s with hlt | ⟨p, hp⟩
        · rw [hnt] at hlt
          dsimp only at hlt
          have hs3 := advanceSkip_le
            { s1 with errorRecovery := s1.errorRecovery.markRecovered s1.startPosition }
          have hch : ({ s1 with errorRecovery :=
              s1.errorRecovery.markRecovered s1.startPosition } : Scanner).chars.length
              = s1.chars.length := rfl
          obtain ⟨ts, tt, h1, h2, h3⟩ := ih
            (match ({ s1 with errorRecovery :=
                s1.errorRecovery.markRecovered s1.startPosition } : Scanner).advance with
              | (some _, sa) => { sa with errorRecovery := sa.errorRecovery.skipChar }
              | (none, sa) => sa)
            (by omega)
          exact ⟨ts, tt, h1, h2, h3⟩
        · rw [hnt] at hp
          dsimp only at hp
          exact absurd hp (by simp)

/-- Claim C4: scan_all terminates with a well-formed result on every finite
input: the token vector it returns ends with exactly one EndOfFile token,
which is its only EndOfFile token; and every erroneous next_token call
strictly consumes input (the unconditional advance after an error
guarantees forward progress), which with the strict progress of every
non-EOF token is what keeps the loop's fuel bound chars.length + 2 from
ever being exhausted. -/
theorem C4_scan_all_unique_trailing_eof (source : String) :
    (∃ ts t, (Scanner.new source).scanAll.1 = ts ++ [t] ∧ t.kind = .EndOfFile ∧
      ∀ t' ∈ ts, t'.kind ≠ .EndOfFile) ∧
    ∀ (s : Scanner) (e : LexerError) (s1 : Scanner),
      s.nextToken = (.error e, s1) → s1.chars.length < s.chars.length := by
  constructor
  · exact Scanner.scanAllGo_spec ((Scanner.new source).chars.length + 2)
      (Scanner.new source) (le_refl _)
  · intro s e s1 hnt
    rcases Scanner.nextToken_progress s with hlt | ⟨p, hp⟩
    · rw [hnt] at hlt
      exact hlt
    · rw [hnt] at hp
      exact absurd hp (by simp)

end MiniC
